import Mathlib

/-!
Shallow embedding of the UX-Diagram-Agent core (src/lib/tools/builder.py and
src/lib/schema.py): the flow validator `validate_flow`, the diagram compiler
`flow_to_mermaid`, the orchestrator `build_task_flow`, and the
`TaskFlow`/`Node`/`Edge` data model with its dict (de)serialisation.

Python runtime values are modelled by the inductive `Value` (the JSON-like
fragment the program manipulates).  Operations that can raise a Python
exception are modelled in `Except PyErr`.
-/

set_option autoImplicit false

/-- Python exceptions that the embedded code can raise. -/
inductive PyErr where
  | typeError
  | attributeError
  | keyError
  | valueError
deriving DecidableEq, Repr

/-- The universe of Python values handled by the program: `None`, booleans,
integers, strings, lists and (string-keyed) dicts preserving insertion
order. -/
inductive Value where
  | none
  | bool (b : Bool)
  | int (n : Int)
  | str (s : String)
  | list (xs : List Value)
  | dict (entries : List (String × Value))
deriving Repr

/-! Structural (Python `==`) equality on `Value`, by mutual structural
recursion so that it evaluates by reduction. -/

mutual

def Value.beq : Value → Value → Bool
  | .none, .none => true
  | .bool a, .bool b => a == b
  | .int a, .int b => a == b
  | .str a, .str b => a == b
  | .list xs, .list ys => beqValueList xs ys
  | .dict xs, .dict ys => beqValueEntries xs ys
  | _, _ => false

def beqValueList : List Value → List Value → Bool
  | [], [] => true
  | x :: xs, y :: ys => Value.beq x y && beqValueList xs ys
  | _, _ => false

def beqValueEntries : List (String × Value) → List (String × Value) → Bool
  | [], [] => true
  | (k1, v1) :: xs, (k2, v2) :: ys => k1 == k2 && Value.beq v1 v2 && beqValueEntries xs ys
  | _, _ => false

end

instance : BEq Value := ⟨Value.beq⟩

/-- Soundness and completeness of `Value.beq` (needed to register the
`DecidableEq`/`LawfulBEq` instances right here, before the instances are
used by the definitions below). -/
def Value.beq_spec : ∀ a b : Value, Value.beq a b = true ↔ a = b :=
  @Value.rec (fun a => ∀ b, Value.beq a b = true ↔ a = b)
    (fun xs => ∀ ys, beqValueList xs ys = true ↔ xs = ys)
    (fun es => ∀ fs, beqValueEntries es fs = true ↔ es = fs)
    (fun p => ∀ w : Value, Value.beq p.2 w = true ↔ p.2 = w)
    (fun b => by cases b <;> simp [Value.beq])
    (fun a b => by cases b <;> simp [Value.beq])
    (fun n b => by cases b <;> simp [Value.beq])
    (fun s b => by cases b <;> simp [Value.beq])
    (fun xs ih b => by cases b <;> simp [Value.beq, ih])
    (fun es ih b => by cases b <;> simp [Value.beq, ih])
    (fun ys => by cases ys <;> simp [beqValueList])
    (fun x xs ih1 ih2 ys => by
      cases ys with
      | nil => simp [beqValueList]
      | cons y ys => simp [beqValueList, ih1, ih2])
    (fun fs => by cases fs <;> simp [beqValueEntries])
    (fun p ps ih1 ih2 fs => by
      obtain ⟨k, v⟩ := p
      cases fs with
      | nil => simp [beqValueEntries]
      | cons q qs =>
        obtain ⟨qk, qv⟩ := q
        simp [beqValueEntries, ih1 qv, ih2 qs, and_assoc])
    (fun k v ih => ih)

instance : DecidableEq Value := fun a b => decidable_of_iff _ (Value.beq_spec a b)

instance : LawfulBEq Value where
  eq_of_beq h := (Value.beq_spec _ _).mp h
  rfl := by intro a; exact (Value.beq_spec a a).mpr rfl

/-- Python truthiness (`bool(v)`). -/
def Value.truthy : Value → Bool
  | .none => false
  | .bool b => b
  | .int n => n != 0
  | .str s => !s.data.isEmpty
  | .list xs => !xs.isEmpty
  | .dict es => !es.isEmpty

/-- Whether a Python value is hashable (usable as a dict key); lists and
dicts are not. -/
def Value.hashable : Value → Bool
  | .list _ => false
  | .dict _ => false
  | _ => true

/-- `isinstance(v, dict)`. -/
def Value.isDict : Value → Bool
  | .dict _ => true
  | _ => false

/-- Dict lookup by string key (first match), `d[k]` / `k in d` support. -/
def dget : List (String × Value) → String → Option Value
  | [], _ => Option.none
  | p :: rest, k => if p.1 = k then some p.2 else dget rest k

/-- `d.get(k)` on a dict value: `None` when the key is absent. -/
def Value.get : Value → String → Value
  | .dict es, k => (dget es k).getD .none
  | _, _ => .none

/-- `k in d` / `d[k]` presence on a dict value. -/
def Value.getKey : Value → String → Option Value
  | .dict es, k => dget es k
  | _, _ => Option.none

/-- `type(v).__name__` for the modelled value universe. -/
def Value.typeName : Value → String
  | .none => "NoneType"
  | .bool _ => "bool"
  | .int _ => "int"
  | .str _ => "str"
  | .list _ => "list"
  | .dict _ => "dict"

/-- ASCII whitespace stripped by Python `str.strip()`. -/
def pyIsSpace (c : Char) : Bool :=
  c = ' ' || c = '\t' || c = '\n' || c = '\r' || c = '\x0b' || c = '\x0c'

/-- Python `s.strip()` (ASCII whitespace; the program only feeds it ordinary
condition strings). -/
def pyStrip (s : String) : String :=
  String.mk (((s.data.dropWhile pyIsSpace).reverse.dropWhile pyIsSpace).reverse)

/-- One character of Python `repr` of a string, escaped relative to the chosen
quote character (common escapes only; exotic non-printables are kept as-is). -/
def pyReprCharIn (q : Char) (c : Char) : String :=
  if c = '\\' then "\\\\"
  else if c = q then "\\" ++ String.singleton q
  else if c = '\n' then "\\n"
  else if c = '\r' then "\\r"
  else if c = '\t' then "\\t"
  else String.singleton c

/-- Python `repr` of a string: single-quoted unless the string contains a
single quote but no double quote. -/
def strRepr (s : String) : String :=
  let q : Char := if s.data.contains '\x27' && !(s.data.contains '"') then '"' else '\x27'
  String.singleton q ++ String.join (s.data.map (pyReprCharIn q)) ++ String.singleton q

/-! Python `repr(v)` over the modelled value universe (`pyRepr`), with
`", ".join`-style element lists written out by mutual structural
recursion. -/

mutual

def pyRepr : Value → String
  | .none => "None"
  | .bool true => "True"
  | .bool false => "False"
  | .int n => toString n
  | .str s => strRepr s
  | .list xs => "[" ++ pyReprList xs ++ "]"
  | .dict es => "\x7b" ++ pyReprEntries es ++ "\x7d"

def pyReprList : List Value → String
  | [] => ""
  | [x] => pyRepr x
  | x :: rest => pyRepr x ++ ", " ++ pyReprList rest

def pyReprEntries : List (String × Value) → String
  | [] => ""
  | [(k, v)] => strRepr k ++ ": " ++ pyRepr v
  | (k, v) :: rest => strRepr k ++ ": " ++ pyRepr v ++ ", " ++ pyReprEntries rest

end

/-- Python `str(v)` (as used by f-string interpolation). -/
def pyStr : Value → String
  | .str s => s
  | v => pyRepr v

/-- Python `s.replace('"', '\\"')` as used when escaping Mermaid labels. -/
def escQuotes (s : String) : String :=
  String.join (s.data.map (fun c => if c = '"' then "\\\"" else String.singleton c))

/-- `(v or "").strip()`: raises `AttributeError` when `v` is truthy but not a
string. -/
def pyOrEmptyStrip (v : Value) : Except PyErr String :=
  if v.truthy then
    match v with
    | .str s => .ok (pyStrip s)
    | _ => .error .attributeError
  else .ok ""

/-- `(v or "").replace('"', '\\"')`: raises `AttributeError` when `v` is
truthy but not a string. -/
def pyOrEmptyReplace (v : Value) : Except PyErr String :=
  if v.truthy then
    match v with
    | .str s => .ok (escQuotes s)
    | _ => .error .attributeError
  else .ok ""

/-! ## Structural validator (`validate_flow`, src/lib/tools/builder.py) -/

/-- One validation issue, a dict `{"type": ..., "message": ...}` in the
source. -/
structure Issue where
  type : String
  message : String
deriving DecidableEq, Repr

/-- The validation report `{"valid": ..., "issues": ...}`. -/
structure Report where
  valid : Bool
  issues : List Issue
deriving DecidableEq, Repr

/-- The node table `{n["id"]: n for n in nodes_raw ...}`: insertion-ordered,
keyed by the (arbitrarily typed) `id` value. -/
abbrev Table := List (Value × Value)

/-- Dict lookup keyed by `Value` (first match). -/
def tget : Table → Value → Option Value
  | [], _ => Option.none
  | p :: rest, k => if p.1 == k then some p.2 else tget rest k

/-- Python dict insertion: overwrite in place on an existing key, else append. -/
def tinsert : Table → Value → Value → Table
  | [], k, v => [(k, v)]
  | p :: rest, k, v => if p.1 == k then (p.1, v) :: rest else p :: tinsert rest k v

/-- `{n["id"]: n for n in nodes_raw if isinstance(n, dict) and "id" in n}`;
raises `TypeError` when an `id` is unhashable. -/
def buildNodeTableAux : Table → List Value → Except PyErr Table
  | acc, [] => .ok acc
  | acc, n :: rest =>
    match n.getKey "id" with
    | some i =>
        if i.hashable then buildNodeTableAux (tinsert acc i n) rest
        else .error .typeError
    | Option.none => buildNodeTableAux acc rest

def buildNodeTable (ns : List Value) : Except PyErr Table :=
  buildNodeTableAux [] ns

/-- Adjacency map `{node_id: [...]}` from node id to a list of edge dicts. -/
abbrev Adj := List (Value × List Value)

def aget : Adj → Value → Option (List Value)
  | [], _ => Option.none
  | p :: rest, k => if p.1 == k then some p.2 else aget rest k

/-- `m[k].append(e)` on the adjacency map (key known to be present). -/
def adjAppend : Adj → Value → Value → Adj
  | [], _, _ => []
  | p :: rest, k, e => if p.1 == k then (p.1, p.2 ++ [e]) :: rest else p :: adjAppend rest k e

/-- `{node_id: [] for node_id in nodes}`. -/
def initAdj (t : Table) : Adj :=
  t.map (fun p => (p.1, []))

def invalidTypeIssue (flow : Value) : Issue :=
  ⟨"invalid_type", "Flow must be a dict with \x27nodes\x27 and \x27edges\x27, but got "
    ++ flow.typeName ++ ": " ++ pyRepr flow⟩

def invalidStructureIssue : Issue :=
  ⟨"invalid_structure", "Flow must have \x27nodes\x27 and \x27edges\x27 as lists. "⟩

def noNodesIssue : Issue :=
  ⟨"no_nodes", "Flow has no valid node definitions."⟩

def startIssue (cnt : Nat) : Issue :=
  ⟨"start_node_count", "Flow should have exactly 1 start node, found " ++ toString cnt ++ "."⟩

def endIssue : Issue :=
  ⟨"end_node_count", "Flow should have at least 1 end node, found 0."⟩

def srcIssue (src : Value) : Issue :=
  ⟨"edge_source_missing", "Edge has source \x27" ++ pyStr src ++ "\x27 which is not a node id."⟩

def tgtIssue (tgt : Value) : Issue :=
  ⟨"edge_target_missing", "Edge has target \x27" ++ pyStr tgt ++ "\x27 which is not a node id."⟩

def noIncomingIssue (nodeId : Value) : Issue :=
  ⟨"no_incoming_edge", "Node \x27" ++ pyStr nodeId ++ "\x27 has no incoming edges and is not the start node."⟩

def noOutgoingIssue (nodeId : Value) : Issue :=
  ⟨"no_outgoing_edge", "Node \x27" ++ pyStr nodeId ++ "\x27 has no outgoing edges and is not an end node."⟩

def branchIssue (nodeId : Value) : Issue :=
  ⟨"decision_branch_count", "Decision node \x27" ++ pyStr nodeId ++ "\x27 should have at least 2 outgoing edges."⟩

def missingCondIssue (nodeId tgt : Value) : Issue :=
  ⟨"missing_condition", "Decision edge from \x27" ++ pyStr nodeId ++ "\x27 to \x27" ++ pyStr tgt
    ++ "\x27 should have a non-empty condition."⟩

/-- `[n for n in nodes.values() if n.get("type") == "start"]`. -/
def startNodes (t : Table) : List Value :=
  (t.map (·.2)).filter (fun n => n.get "type" == .str "start")

def endNodes (t : Table) : List Value :=
  (t.map (·.2)).filter (fun n => n.get "type" == .str "end")

def decisionNodes (t : Table) : List Value :=
  (t.map (·.2)).filter (fun n => n.get "type" == .str "decision")

/-- STEP 1B: the start / end cardinality checks. -/
def startEndIssues (t : Table) : List Issue :=
  (if (startNodes t).length ≠ 1 then [startIssue (startNodes t).length] else [])
    ++ (if (endNodes t).length = 0 then [endIssue] else [])

/-- STEP 2: the edge loop. For each (already `dict`-filtered) edge: flag an
unresolved source / target, then append the edge to the outgoing list of its
source and the incoming list of its target when those resolve.  Membership
tests `src not in nodes` / `tgt not in nodes` hash the key and therefore
raise `TypeError` on an unhashable one. -/
def edgeLoop (t : Table) : List Value → List Issue → Adj → Adj →
    Except PyErr (List Issue × Adj × Adj)
  | [], issues, inc, out => .ok (issues, inc, out)
  | e :: rest, issues, inc, out =>
    let src := e.get "from"
    let tgt := e.get "to"
    if !src.hashable then .error .typeError
    else
      let issues := issues ++ (if (tget t src).isSome then [] else [srcIssue src])
      if !tgt.hashable then .error .typeError
      else
        let issues := issues ++ (if (tget t tgt).isSome then [] else [tgtIssue tgt])
        let out := if (aget out src).isSome then adjAppend out src e else out
        let inc := if (aget inc tgt).isSome then adjAppend inc tgt e else inc
        edgeLoop t rest issues inc out

/-- STEP 3: per-node reachability-shape checks in table order. -/
def topoIssues (inc out : Adj) : Table → List Issue
  | [] => []
  | p :: rest =>
    (if p.2.get "type" != .str "start" && ((aget inc p.1).getD []).isEmpty
      then [noIncomingIssue p.1] else [])
    ++ (if p.2.get "type" != .str "end" && ((aget out p.1).getD []).isEmpty
      then [noOutgoingIssue p.1] else [])
    ++ topoIssues inc out rest

/-- The `for e in outs` condition check of STEP 4 (`(e.get("condition") or
"").strip()` raises on a truthy non-string condition). -/
def condIssues (nodeId : Value) : List Value → Except PyErr (List Issue)
  | [] => .ok []
  | e :: rest => do
    let cond ← pyOrEmptyStrip (e.get "condition")
    let here := if cond.data.isEmpty then [missingCondIssue nodeId (e.get "to")] else []
    let more ← condIssues nodeId rest
    .ok (here ++ more)

/-- STEP 4 for one decision node: branch-count check, then per-edge condition
check over `outgoing.get(node["id"], [])`. -/
def decisionCheckNode (out : Adj) (node : Value) : Except PyErr (List Issue) := do
  let nodeId ← match node.getKey "id" with
    | some i => Except.ok i
    | Option.none => Except.error PyErr.keyError
  let outs := (aget out nodeId).getD []
  let branch := if outs.length < 2 then [branchIssue nodeId] else []
  let conds ← condIssues nodeId outs
  .ok (branch ++ conds)

/-- STEP 4 over all decision nodes. -/
def decisionIssuesAll (out : Adj) : List Value → Except PyErr (List Issue)
  | [] => .ok []
  | n :: rest => do
    let here ← decisionCheckNode out n
    let more ← decisionIssuesAll out rest
    .ok (here ++ more)

/-- `validate_flow` (src/lib/tools/builder.py, lines 14-167). -/
def validate_flow (flow : Value) : Except PyErr Report :=
  match flow with
  | .dict d =>
    let nodesRaw := (dget d "nodes").getD .none
    let edgesRaw := (dget d "edges").getD .none
    match nodesRaw, edgesRaw with
    | .list ns, .list es => do
      let t ← buildNodeTable ns
      let des := es.filter Value.isDict
      let issues0 := if t.isEmpty then [noNodesIssue] else []
      let issues1 := issues0 ++ startEndIssues t
      let (issues2, inc, out) ← edgeLoop t des issues1 (initAdj t) (initAdj t)
      let issues3 := issues2 ++ topoIssues inc out t
      let dIssues ← decisionIssuesAll out (decisionNodes t)
      let issues4 := issues3 ++ dIssues
      .ok ⟨issues4.isEmpty, issues4⟩
    | _, _ => .ok ⟨false, [invalidStructureIssue]⟩
  | _ => .ok ⟨false, [invalidTypeIssue flow]⟩

/-! ## Diagram compiler (`flow_to_mermaid`, src/lib/tools/builder.py) -/

/-- Result dict `{"title": ..., "mermaid": ...}` of the compiler. -/
structure MermaidResult where
  title : Value
  mermaid : String
deriving DecidableEq, Repr

/-- `format_node`: one Mermaid node expression; the label is
`(node.get("label") or "").replace('"', '\\"')` (which raises on a truthy
non-string label), the shape is chosen from `node.get("type")`. -/
def format_node (node : Value) : Except PyErr String := do
  let label ← pyOrEmptyReplace (node.get "label")
  let nodeId ← match node.getKey "id" with
    | some i => Except.ok i
    | Option.none => Except.error PyErr.keyError
  let nodeType := node.get "type"
  if nodeType == .str "start" || nodeType == .str "end" then
    .ok (pyStr nodeId ++ "([" ++ label ++ "])")
  else if nodeType == .str "decision" then
    .ok (pyStr nodeId ++ "\x7b" ++ label ++ "\x7d")
  else
    .ok (pyStr nodeId ++ "[" ++ label ++ "]")

/-- The node-rendering loop: one line `" " ++ format_node(node)` per node
table entry, in insertion order. -/
def nodeLines : Table → Except PyErr (List String)
  | [] => .ok []
  | p :: rest => do
    let l ← format_node p.2
    let ls ← nodeLines rest
    .ok ((" " ++ l) :: ls)

/-- The lines contributed by one entry of the edge list: non-dicts are
skipped; for a dict the condition is stripped first (raising on a truthy
non-string), then the edge is skipped when `not src or tgt`, else rendered
as a (possibly labelled) connector. -/
def edgeLine (e : Value) : Except PyErr (List String) :=
  match e with
  | .dict _ => do
    let src := e.get "from"
    let tgt := e.get "to"
    let cond ← pyOrEmptyStrip (e.get "condition")
    if !src.truthy || tgt.truthy then
      .ok []
    else if !cond.data.isEmpty then
      .ok ["     " ++ pyStr src ++ " -->|" ++ escQuotes cond ++ "| " ++ pyStr tgt]
    else
      .ok ["     " ++ pyStr src ++ " --> " ++ pyStr tgt]
  | _ => .ok []

/-- The edge-rendering loop over the raw edge list. -/
def edgeLines : List Value → Except PyErr (List String)
  | [] => .ok []
  | e :: rest => do
    let here ← edgeLine e
    let more ← edgeLines rest
    .ok (here ++ more)

/-- Python `"\n".join(lines)`. -/
def joinLines : List String → String
  | [] => ""
  | [l] => l
  | l :: rest => l ++ "\n" ++ joinLines rest

/-- `flow_to_mermaid` (src/lib/tools/builder.py, lines 173-249).  Note the
defaults: `flow.get("nodes", [])` / `flow.get("edges", [])`, so a missing key
is replaced by an empty list before the shape test. -/
def flow_to_mermaid (flow : Value) : Except PyErr MermaidResult :=
  match flow with
  | .dict d =>
    let nodesV := (dget d "nodes").getD (.list [])
    let edgesV := (dget d "edges").getD (.list [])
    match nodesV, edgesV with
    | .list ns, .list es => do
      let t ← buildNodeTable ns
      let nls ← nodeLines t
      let els ← edgeLines es
      let lines := "flowchart TD" :: (nls ++ els)
      .ok ⟨(dget d "title").getD (.str "Untitled Flow"), joinLines lines⟩
    | _, _ =>
      .ok ⟨(dget d "title").getD (.str "Invalid Flow"),
        "flowchart TD\n ERR[Invalid flow: nodes/edges not lists]\n"⟩
  | _ => .ok ⟨.str "Invalid Flow", "flowchart TD\n ERR[Invalid flow: not a dict]\n"⟩

/-! ## Build orchestrator (`build_task_flow`, src/lib/tools/builder.py) -/

/-- Result dict of `build_task_flow`. -/
structure BuildResult where
  validation : Report
  mermaid : String
  title : Value
deriving DecidableEq, Repr

/-- The fixed placeholder diagram body returned for invalid flows. -/
def errPlaceholder : String :=
  "flowchart TD\n ERR[Invalid flow input. See issues list.]\n"

/-- The invalid-path title of `build_task_flow`: `title = "Invalid Flow"`,
overwritten by `flow.get("title", title)` when the input is a dict. -/
def invalidTitle (flow : Value) : Value :=
  match flow with
  | .dict d => (dget d "title").getD (.str "Invalid Flow")
  | _ => .str "Invalid Flow"

/-- `build_task_flow` (src/lib/tools/builder.py, lines 256-292): validate
first; on an invalid report return the placeholder diagram and a title taken
from the input when it is a dict containing `"title"`, else the sentinel. -/
def build_task_flow (flow : Value) : Except PyErr BuildResult := do
  let validation ← validate_flow flow
  if !validation.valid then
    .ok ⟨validation, errPlaceholder, invalidTitle flow⟩
  else
    let m ← flow_to_mermaid flow
    .ok ⟨validation, m.mermaid, m.title⟩

/-! ## Data model (src/lib/schema.py) -/

/-- `NodeType`, a closed `str`-valued enumeration. -/
inductive NodeType where
  | START
  | PROCESS
  | DECISION
  | END
deriving DecidableEq, Repr

/-- `.value` of a `NodeType` member. -/
def NodeType.value : NodeType → String
  | .START => "start"
  | .PROCESS => "process"
  | .DECISION => "decision"
  | .END => "end"

/-- The enum call `NodeType(x)`: value lookup, `ValueError` on anything that
is not one of the four member values. -/
def NodeType.ofValue : Value → Except PyErr NodeType
  | .str "start" => .ok .START
  | .str "process" => .ok .PROCESS
  | .str "decision" => .ok .DECISION
  | .str "end" => .ok .END
  | _ => .error .valueError

/-- The `Node` dataclass.  Python performs no runtime check of the annotated
field types, so `id`/`label`/`actor` hold arbitrary values; only `type` is
forced through the `NodeType` enum by `from_dict`. -/
structure Node where
  id : Value
  label : Value
  actor : Value
  type : NodeType
deriving DecidableEq, Repr

/-- `Node.to_dict`: `asdict` (field order `id`,`label`,`actor`,`type`) with
the enum stored as its value. -/
def Node.to_dict (n : Node) : Value :=
  .dict [("id", n.id), ("label", n.label), ("actor", n.actor), ("type", .str n.type.value)]

/-- The `Edge` dataclass. -/
structure Edge where
  source : Value
  target : Value
  condition : Value
deriving DecidableEq, Repr

/-- `Edge.to_dict`: internal `source`/`target` map to external `from`/`to`. -/
def Edge.to_dict (e : Edge) : Value :=
  .dict [("from", e.source), ("to", e.target), ("condition", e.condition)]

/-- The `TaskFlow` dataclass. -/
structure TaskFlow where
  title : Value
  actors : Value
  nodes : List Node
  edges : List Edge
deriving DecidableEq, Repr

/-- `TaskFlow.to_dict`. -/
def TaskFlow.to_dict (t : TaskFlow) : Value :=
  .dict [("title", t.title), ("actors", t.actors),
    ("nodes", .list (t.nodes.map Node.to_dict)),
    ("edges", .list (t.edges.map Edge.to_dict))]

/-- Python `for x in v`: lists yield elements, strings characters, dicts
keys; other values raise `TypeError`. -/
def pyIter : Value → Except PyErr (List Value)
  | .list xs => .ok xs
  | .str s => .ok (s.data.map (fun c => .str (String.singleton c)))
  | .dict es => .ok (es.map (fun p => .str p.1))
  | _ => .error .typeError

/-- Python subscription `v[k]` with a string key: `KeyError` when a dict
lacks the key, `TypeError` on non-dicts (string/list/int subscripts with a
string key all raise `TypeError`). -/
def pyIndex (v : Value) (k : String) : Except PyErr Value :=
  match v with
  | .dict es =>
    match dget es k with
    | some x => .ok x
    | Option.none => .error .keyError
  | _ => .error .typeError

/-- One `Node(id=n["id"], label=n["label"], actor=n["actor"],
type=NodeType(n["type"]))` construction from `TaskFlow.from_dict`. -/
def Node.from_val (n : Value) : Except PyErr Node := do
  let i ← pyIndex n "id"
  let l ← pyIndex n "label"
  let a ← pyIndex n "actor"
  let tv ← pyIndex n "type"
  let ty ← NodeType.ofValue tv
  .ok ⟨i, l, a, ty⟩

/-- One `Edge(source=e["from"], target=e["to"], condition=e.get("condition"))`
construction from `TaskFlow.from_dict`. -/
def Edge.from_val (e : Value) : Except PyErr Edge := do
  let s ← pyIndex e "from"
  let t ← pyIndex e "to"
  .ok ⟨s, t, e.get "condition"⟩

/-- The node list comprehension of `from_dict`. -/
def nodesFromVals : List Value → Except PyErr (List Node)
  | [] => .ok []
  | n :: rest => do
    let here ← Node.from_val n
    let more ← nodesFromVals rest
    .ok (here :: more)

/-- The edge list comprehension of `from_dict`. -/
def edgesFromVals : List Value → Except PyErr (List Edge)
  | [] => .ok []
  | e :: rest => do
    let here ← Edge.from_val e
    let more ← edgesFromVals rest
    .ok (here :: more)

/-- `TaskFlow.from_dict` (src/lib/schema.py, lines 105-134).  Calling any
`.get` on a non-dict raises `AttributeError`. -/
def TaskFlow.from_dict (data : Value) : Except PyErr TaskFlow :=
  match data with
  | .dict d => do
    let nodesIt ← pyIter ((dget d "nodes").getD (.list []))
    let nodes ← nodesFromVals nodesIt
    let edgesIt ← pyIter ((dget d "edges").getD (.list []))
    let edges ← edgesFromVals edgesIt
    .ok ⟨(dget d "title").getD (.str "Untitled Flow"),
      (dget d "actors").getD (.list [.str "user", .str "system"]),
      nodes, edges⟩
  | _ => .error .attributeError

/-! ## Spec-side predicates used by the claims -/

/-- The issues one (dict) edge contributes in STEP 2 of the validator. -/
def edgeIssuesOf (t : Table) (e : Value) : List Issue :=
  (if (tget t (e.get "from")).isSome then [] else [srcIssue (e.get "from")])
    ++ (if (tget t (e.get "to")).isSome then [] else [tgtIssue (e.get "to")])

/-- Whether `(e.get("condition") or "").strip()` evaluates (without raising)
to the empty string. -/
def condEmpty (e : Value) : Bool :=
  match pyOrEmptyStrip (e.get "condition") with
  | .ok s => s.data.isEmpty
  | .error _ => false

/-- A value that `(v or "")`-then-string-method code can process without an
`AttributeError`: a string, or falsy. -/
def strOrFalsy (v : Value) : Bool :=
  match v with
  | .str _ => true
  | _ => !v.truthy

/-- A node entry whose processing by the node-table comprehension cannot
raise: if it is a dict with an `"id"`, the id is hashable. -/
def nodeSafe (n : Value) : Bool :=
  match n.getKey "id" with
  | some i => i.hashable
  | Option.none => true

/-- An edge entry whose processing by the validator cannot raise: if it is a
dict, its endpoints are hashable and its condition strippable. -/
def edgeSafe (e : Value) : Bool :=
  match e with
  | .dict _ => (e.get "from").hashable && (e.get "to").hashable && strOrFalsy (e.get "condition")
  | _ => true

/-- Inputs on which `validate_flow` cannot raise. -/
def SafeFlow (flow : Value) : Bool :=
  match flow with
  | .dict d =>
    match (dget d "nodes").getD .none, (dget d "edges").getD .none with
    | .list ns, .list es => ns.all nodeSafe && es.all edgeSafe
    | _, _ => true
  | _ => true

/-- A node entry whose processing by the compiler cannot raise: if it is a
dict with an `"id"`, the id is hashable and the label replaceable. -/
def nodeSafeM (n : Value) : Bool :=
  match n.getKey "id" with
  | some i => i.hashable && strOrFalsy (n.get "label")
  | Option.none => true

/-- An edge entry whose rendering cannot raise. -/
def edgeSafeM (e : Value) : Bool :=
  match e with
  | .dict _ => strOrFalsy (e.get "condition")
  | _ => true

/-- Inputs on which `flow_to_mermaid` cannot raise. -/
def SafeMermaid (flow : Value) : Bool :=
  match flow with
  | .dict d =>
    match (dget d "nodes").getD (.list []), (dget d "edges").getD (.list []) with
    | .list ns, .list es => ns.all nodeSafeM && es.all edgeSafeM
    | _, _ => true
  | _ => true

/-- `isinstance(v, list)`. -/
def Value.isList : Value → Bool
  | .list _ => true
  | _ => false

/-- Spec-side well-formedness of a node entry of an external description (from
the serialization contract of the spec): a dict with `id`, `label`, `actor`
present and a `type` that is one of the four `NodeType` values. -/
def wfNodeDesc (n : Value) : Bool :=
  n.isDict && (n.getKey "id").isSome && (n.getKey "label").isSome
    && (n.getKey "actor").isSome
    && (match n.getKey "type" with
        | some (.str ty) =>
          ty = "start" || ty = "process" || ty = "decision" || ty = "end"
        | _ => false)

/-- Spec-side well-formedness of an edge entry: a dict with `from` and `to`
present (`condition` optional). -/
def wfEdgeDesc (e : Value) : Bool :=
  e.isDict && (e.getKey "from").isSome && (e.getKey "to").isSome

/-- Spec-side well-formedness of an external description (a dict with
`title`/`actors` present and well-formed node/edge lists). -/
def WfDescription (d : Value) : Bool :=
  d.isDict && (d.getKey "title").isSome && (d.getKey "actors").isSome
    && (match d.getKey "nodes" with
        | some (.list ns) => ns.all wfNodeDesc
        | _ => false)
    && (match d.getKey "edges" with
        | some (.list es) => es.all wfEdgeDesc
        | _ => false)

/-- Field-reproduction relation between an input node entry and the node
entry emitted by `to_dict` after `from_dict`. -/
def nodeFieldsEq (n n' : Value) : Prop :=
  n'.get "id" = n.get "id" ∧ n'.get "label" = n.get "label"
    ∧ n'.get "actor" = n.get "actor" ∧ n'.get "type" = n.get "type"

/-- Field-reproduction relation between an input edge entry and the edge
entry emitted by `to_dict` (internal `source`/`target` back to external
`from`/`to`; an absent `condition` reappears as an explicit `None`). -/
def edgeFieldsEq (e e' : Value) : Prop :=
  e'.get "from" = e.get "from" ∧ e'.get "to" = e.get "to"
    ∧ e'.get "condition" = e.get "condition"

/-! ## Concrete inputs used by witnesses and counterexamples -/

/-- Start node `{id: "s", type: "start"}`. -/
def nodeS : Value := .dict [("id", .str "s"), ("type", .str "start")]

/-- End node `{id: "e", type: "end"}`. -/
def nodeE : Value := .dict [("id", .str "e"), ("type", .str "end")]

/-- Edge `{from: "s", to: "e"}`. -/
def edgeSE : Value := .dict [("from", .str "s"), ("to", .str "e")]

/-- Edge `{from: "ghost", to: "s"}` whose source resolves to no node. -/
def edgeGhost : Value := .dict [("from", .str "ghost"), ("to", .str "s")]

/-- The two-node flow `s -> e` of the spec example. -/
def flowSE : Value :=
  .dict [("nodes", .list [nodeS, nodeE]), ("edges", .list [edgeSE])]

/-- The `s -> e` flow with an extra edge from the undeclared node `ghost`. -/
def flowGhost : Value :=
  .dict [("nodes", .list [nodeS, nodeE]), ("edges", .list [edgeSE, edgeGhost])]

/-- Node table of `flowSE` / `flowGhost`. -/
def t0 : Table := [(.str "s", nodeS), (.str "e", nodeE)]

def nodeSt : Value := .dict [("id", .str "st"), ("type", .str "start")]

def nodeD : Value := .dict [("id", .str "d"), ("type", .str "decision")]

def nodeA : Value := .dict [("id", .str "a"), ("type", .str "end")]

def nodeB : Value := .dict [("id", .str "b"), ("type", .str "end")]

def edgeStD : Value := .dict [("from", .str "st"), ("to", .str "d")]

/-- Conditioned decision edge `d -> a`. -/
def edgeDA : Value :=
  .dict [("from", .str "d"), ("to", .str "a"), ("condition", .str "yes")]

/-- Unconditioned decision edge `d -> b`. -/
def edgeDB : Value := .dict [("from", .str "d"), ("to", .str "b")]

/-- The decision-node example flow of the spec: `st -> d`, `d -> a` with
condition `"yes"`, `d -> b` without a condition. -/
def flowDec : Value :=
  .dict [("nodes", .list [nodeSt, nodeD, nodeA, nodeB]),
    ("edges", .list [edgeStD, edgeDA, edgeDB])]

/-- Node table of `flowDec`. -/
def tD : Table :=
  [(.str "st", nodeSt), (.str "d", nodeD), (.str "a", nodeA), (.str "b", nodeB)]

/-- Outgoing adjacency of `flowDec` as built by the validator edge loop. -/
def outD : Adj :=
  [(.str "st", [edgeStD]), (.str "d", [edgeDA, edgeDB]), (.str "a", []), (.str "b", [])]

/-- Incoming adjacency of `flowDec` as built by the validator edge loop. -/
def incD : Adj :=
  [(.str "st", []), (.str "d", [edgeStD]), (.str "a", [edgeDA]), (.str "b", [edgeDB])]

/-- A flow whose node entry has an unhashable (list-valued) `id`. -/
def unhashableIdFlow : Value :=
  .dict [("nodes", .list [.dict [("id", .list [])]]), ("edges", .list [])]

/-- A shape-valid flow with an edge whose `condition` is a truthy
non-string. -/
def badCondFlow : Value :=
  .dict [("nodes", .list []),
    ("edges", .list [.dict [("from", .str "a"), ("condition", .int 1)]])]

/-- A second start node, for the two-start example. -/
def nodeS2 : Value := .dict [("id", .str "s2"), ("type", .str "start")]

/-- A flow with two start nodes and no edges. -/
def flow2S : Value := .dict [("nodes", .list [nodeS, nodeS2]), ("edges", .list [])]

/-- Node table of `flow2S`. -/
def t2S : Table := [(.str "s", nodeS), (.str "s2", nodeS2)]

/-- Incoming adjacency of `flowSE`. -/
def incSE : Adj := [(.str "s", []), (.str "e", [edgeSE])]

/-- Outgoing adjacency of `flowSE`. -/
def outSE : Adj := [(.str "s", [edgeSE]), (.str "e", [])]

/-- Incoming adjacency of `flowGhost`. -/
def incG : Adj := [(.str "s", [edgeGhost]), (.str "e", [edgeSE])]

/-- Outgoing adjacency of `flowGhost`. -/
def outG : Adj := [(.str "s", [edgeSE]), (.str "e", [])]

/-! ## Helper lemmas: node table -/

theorem tinsert_mem {acc : Table} {k v : Value} {p : Value × Value}
    (h : p ∈ tinsert acc k v) : p ∈ acc ∨ p = (k, v) := by
  induction acc with
  | nil =>
    rw [tinsert] at h
    simp at h
    exact Or.inr (by simp [h])
  | cons q rest ih =>
    rw [tinsert] at h
    split at h
    next hq =>
      have hq' : q.1 = k := by simpa using hq
      rcases List.mem_cons.mp h with h | h
      · exact Or.inr (by simp [h, hq'])
      · exact Or.inl (List.mem_cons_of_mem _ h)
    next =>
      rcases List.mem_cons.mp h with h | h
      · exact Or.inl (by simp [h])
      · rcases ih h with h | h
        · exact Or.inl (List.mem_cons_of_mem _ h)
        · exact Or.inr h

theorem buildNodeTableAux_mem {Q : Value × Value → Prop} :
    ∀ {ns : List Value} {acc t : Table},
    buildNodeTableAux acc ns = .ok t →
    (∀ p ∈ acc, Q p) →
    (∀ n ∈ ns, ∀ i, n.getKey "id" = some i → i.hashable = true → Q (i, n)) →
    ∀ p ∈ t, Q p := by
  intro ns
  induction ns with
  | nil =>
    intro acc t ht hacc _ p hp
    rw [buildNodeTableAux] at ht
    cases ht
    exact hacc p hp
  | cons n rest ih =>
    intro acc t ht hacc hns p hp
    rw [buildNodeTableAux.eq_def] at ht
    cases hid : n.getKey "id" with
    | none =>
      simp only [hid] at ht
      exact ih ht hacc (fun m hm j hj hh => hns m (List.mem_cons_of_mem _ hm) j hj hh) p hp
    | some i =>
      simp only [hid] at ht
      by_cases hhash : i.hashable = true
      · rw [if_pos hhash] at ht
        refine ih ht ?_ (fun m hm j hj hh => hns m (List.mem_cons_of_mem _ hm) j hj hh) p hp
        intro q hq
        rcases tinsert_mem hq with hq | hq
        · exact hacc q hq
        · subst hq
          exact hns n (by simp) i hid hhash
      · rw [if_neg hhash] at ht
        cases ht

theorem buildNodeTableAux_total :
    ∀ {ns : List Value} {acc : Table},
    (∀ n ∈ ns, nodeSafe n = true) →
    ∃ t, buildNodeTableAux acc ns = .ok t := by
  intro ns
  induction ns with
  | nil => intro acc _; exact ⟨acc, rfl⟩
  | cons n rest ih =>
    intro acc hsafe
    have hn : nodeSafe n = true := hsafe n (by simp)
    have hrest : ∀ m ∈ rest, nodeSafe m = true :=
      fun m hm => hsafe m (List.mem_cons_of_mem _ hm)
    rw [buildNodeTableAux.eq_def]
    cases hid : n.getKey "id" with
    | none =>
      simp only [hid]
      exact ih hrest
    | some i =>
      rw [nodeSafe, hid] at hn
      simp only [] at hn
      simp only [hid]
      rw [if_pos hn]
      exact ih hrest

/-! ## Helper lemmas: adjacency -/

theorem aget_adjAppend (m : Adj) (k e q : Value) :
    aget (adjAppend m k e) q =
      if q = k then (aget m k).map (fun l => l ++ [e]) else aget m q := by
  induction m with
  | nil => by_cases h : q = k <;> simp [adjAppend, aget, h]
  | cons p rest ih =>
    by_cases hpk : p.1 = k <;> by_cases hq : q = k
    · subst hq
      simp [adjAppend, aget, hpk]
    · have hkq : ¬ k = q := fun h => hq h.symm
      have hpq : ¬ p.1 = q := fun h => hq ((h.symm).trans hpk)
      simp [adjAppend, aget, hpk, hq, hpq, hkq]
    · subst hq
      have hpq : ¬ p.1 = q := hpk
      simp [adjAppend, aget, hpk, hpq, ih]
    · by_cases hpq : p.1 = q
      · simp [adjAppend, aget, hpk, hpq, hq]
      · simp [adjAppend, aget, hpk, hpq, hq, ih]

theorem aget_initAdj (t : Table) (k : Value) :
    aget (initAdj t) k = (tget t k).map (fun _ => ([] : List Value)) := by
  induction t with
  | nil => simp [initAdj, aget, tget]
  | cons p rest ih =>
    simp only [initAdj, List.map_cons]
    rw [aget, tget]
    by_cases h : (p.1 == k) = true
    · rw [if_pos h, if_pos h]
      simp
    · rw [if_neg h, if_neg h]
      simpa [initAdj] using ih

/-! ## Helper lemmas: the edge loop -/

theorem edgeLoop_issues {t : Table} :
    ∀ {des : List Value} {seed : List Issue} {inc out : Adj}
      {res : List Issue × Adj × Adj},
    edgeLoop t des seed inc out = .ok res →
    res.1 = seed ++ des.flatMap (edgeIssuesOf t) := by
  intro des
  induction des with
  | nil =>
    intro seed inc out res h
    rw [edgeLoop] at h
    cases h
    simp
  | cons e rest ih =>
    intro seed inc out res h
    simp only [edgeLoop] at h
    split at h
    next => simp at h
    next =>
      split at h
      next => simp at h
      next =>
        rw [ih h]
        simp [edgeIssuesOf, List.flatMap_cons]

theorem edgeLoop_total {t : Table} :
    ∀ {des : List Value} {seed : List Issue} {inc out : Adj},
    (∀ e ∈ des, (e.get "from").hashable = true ∧ (e.get "to").hashable = true) →
    ∃ res, edgeLoop t des seed inc out = .ok res := by
  intro des
  induction des with
  | nil => intro seed inc out _; exact ⟨_, rfl⟩
  | cons e rest ih =>
    intro seed inc out hsafe
    have he := hsafe e (by simp)
    simp only [edgeLoop]
    rw [if_neg (by simp [he.1]), if_neg (by simp [he.2])]
    exact ih (fun x hx => hsafe x (List.mem_cons_of_mem _ hx))

theorem edgeLoop_aget_out {t : Table} :
    ∀ {des : List Value} {seed : List Issue} {inc out : Adj}
      {res : List Issue × Adj × Adj},
    edgeLoop t des seed inc out = .ok res →
    ∀ k, aget res.2.2 k =
      (aget out k).map (fun l => l ++ des.filter (fun e => e.get "from" == k)) := by
  intro des
  induction des with
  | nil =>
    intro seed inc out res h k
    rw [edgeLoop] at h
    cases h
    cases aget out k <;> simp
  | cons e rest ih =>
    intro seed inc out res h k
    simp only [edgeLoop] at h
    split at h
    next => simp at h
    next =>
      split at h
      next => simp at h
      next =>
        rw [ih h k, List.filter_cons]
        by_cases hek : (e.get "from" == k) = true
        · have hek' : e.get "from" = k := by simpa using hek
          rw [if_pos hek]
          cases hout : aget out k with
          | none =>
            rw [if_neg (by simp [hek', hout]), hout]
            simp
          | some l =>
            rw [if_pos (by simp [hek', hout]), aget_adjAppend, if_pos hek'.symm, hek', hout]
            simp
        · have hek' : ¬ e.get "from" = k := by simpa using hek
          rw [if_neg hek]
          by_cases hsome : (aget out (e.get "from")).isSome = true
          · rw [if_pos hsome, aget_adjAppend, if_neg (fun hh => hek' hh.symm)]
          · rw [if_neg hsome]

theorem edgeLoop_aget_inc {t : Table} :
    ∀ {des : List Value} {seed : List Issue} {inc out : Adj}
      {res : List Issue × Adj × Adj},
    edgeLoop t des seed inc out = .ok res →
    ∀ k, aget res.2.1 k =
      (aget inc k).map (fun l => l ++ des.filter (fun e => e.get "to" == k)) := by
  intro des
  induction des with
  | nil =>
    intro seed inc out res h k
    rw [edgeLoop] at h
    cases h
    cases aget inc k <;> simp
  | cons e rest ih =>
    intro seed inc out res h k
    simp only [edgeLoop] at h
    split at h
    next => simp at h
    next =>
      split at h
      next => simp at h
      next =>
        rw [ih h k, List.filter_cons]
        by_cases hek : (e.get "to" == k) = true
        · have hek' : e.get "to" = k := by simpa using hek
          rw [if_pos hek]
          cases hinc : aget inc k with
          | none =>
            rw [if_neg (by simp [hek', hinc]), hinc]
            simp
          | some l =>
            rw [if_pos (by simp [hek', hinc]), aget_adjAppend, if_pos hek'.symm, hek', hinc]
            simp
        · have hek' : ¬ e.get "to" = k := by simpa using hek
          rw [if_neg hek]
          by_cases hsome : (aget inc (e.get "to")).isSome = true
          · rw [if_pos hsome, aget_adjAppend, if_neg (fun hh => hek' hh.symm)]
          · rw [if_neg hsome]

/-! ## Helper lemmas: conditions and decision checks -/

theorem exbind_ok {α β : Type} (a : α) (f : α → Except PyErr β) :
    (Except.ok a >>= f) = f a := rfl

theorem exbind_err {α β : Type} (err : PyErr) (f : α → Except PyErr β) :
    ((Except.error err : Except PyErr α) >>= f) = Except.error err := rfl

theorem pyOrEmptyStrip_str (s : String) : pyOrEmptyStrip (.str s) = .ok (pyStrip s) := by
  simp only [pyOrEmptyStrip]
  by_cases h : (Value.truthy (.str s)) = true
  · rw [if_pos h]
  · rw [if_neg h]
    obtain ⟨cs⟩ := s
    rw [Value.truthy] at h
    simp at h
    subst h
    rfl

theorem pyOrEmptyStrip_ok : ∀ {v : Value}, strOrFalsy v = true →
    ∃ s, pyOrEmptyStrip v = .ok s := by
  intro v h
  cases v with
  | str s => exact ⟨_, pyOrEmptyStrip_str s⟩
  | none => exact ⟨"", rfl⟩
  | bool b =>
    cases b with
    | false => exact ⟨"", rfl⟩
    | true =>
      have h2 : (!(Value.truthy (Value.bool true))) = true := h
      simp [Value.truthy] at h2
  | int n =>
    have h2 : (!(Value.truthy (Value.int n))) = true := h
    simp [Value.truthy] at h2
    subst h2
    exact ⟨"", rfl⟩
  | list xs =>
    have h2 : (!(Value.truthy (Value.list xs))) = true := h
    simp [Value.truthy] at h2
    subst h2
    exact ⟨"", rfl⟩
  | dict es =>
    have h2 : (!(Value.truthy (Value.dict es))) = true := h
    simp [Value.truthy] at h2
    subst h2
    exact ⟨"", rfl⟩

theorem pyOrEmptyReplace_str (s : String) : pyOrEmptyReplace (.str s) = .ok (escQuotes s) := by
  simp only [pyOrEmptyReplace]
  by_cases h : (Value.truthy (.str s)) = true
  · rw [if_pos h]
  · rw [if_neg h]
    obtain ⟨cs⟩ := s
    rw [Value.truthy] at h
    simp at h
    subst h
    rfl

theorem pyOrEmptyReplace_ok : ∀ {v : Value}, strOrFalsy v = true →
    ∃ s, pyOrEmptyReplace v = .ok s := by
  intro v h
  cases v with
  | str s => exact ⟨_, pyOrEmptyReplace_str s⟩
  | none => exact ⟨"", rfl⟩
  | bool b =>
    cases b with
    | false => exact ⟨"", rfl⟩
    | true =>
      have h2 : (!(Value.truthy (Value.bool true))) = true := h
      simp [Value.truthy] at h2
  | int n =>
    have h2 : (!(Value.truthy (Value.int n))) = true := h
    simp [Value.truthy] at h2
    subst h2
    exact ⟨"", rfl⟩
  | list xs =>
    have h2 : (!(Value.truthy (Value.list xs))) = true := h
    simp [Value.truthy] at h2
    subst h2
    exact ⟨"", rfl⟩
  | dict es =>
    have h2 : (!(Value.truthy (Value.dict es))) = true := h
    simp [Value.truthy] at h2
    subst h2
    exact ⟨"", rfl⟩

theorem condIssues_total {nid : Value} :
    ∀ {outs : List Value},
    (∀ e ∈ outs, ∃ s, pyOrEmptyStrip (e.get "condition") = .ok s) →
    ∃ is, condIssues nid outs = .ok is := by
  intro outs
  induction outs with
  | nil => intro _; exact ⟨_, rfl⟩
  | cons e rest ih =>
    intro h
    obtain ⟨s, hs⟩ := h e (by simp)
    obtain ⟨is, his⟩ := ih (fun x hx => h x (List.mem_cons_of_mem _ hx))
    rw [condIssues, hs, exbind_ok, his, exbind_ok]
    exact ⟨_, rfl⟩

theorem condIssues_spec {nid : Value} :
    ∀ {outs : List Value} {is : List Issue},
    condIssues nid outs = .ok is →
    is = outs.flatMap (fun e =>
      if condEmpty e then [missingCondIssue nid (e.get "to")] else []) := by
  intro outs
  induction outs with
  | nil =>
    intro is h
    rw [condIssues] at h
    cases h
    simp
  | cons e rest ih =>
    intro is h
    rw [condIssues] at h
    cases hs : pyOrEmptyStrip (e.get "condition") with
    | error err => rw [hs, exbind_err] at h; cases h
    | ok s =>
      rw [hs, exbind_ok] at h
      cases his : condIssues nid rest with
      | error err => rw [his, exbind_err] at h; cases h
      | ok more =>
        rw [his, exbind_ok] at h
        cases h
        have hce : condEmpty e = s.data.isEmpty := by rw [condEmpty, hs]
        rw [ih his, List.flatMap_cons, hce]

theorem decisionCheckNode_spec {out : Adj} {node nodeId : Value} {is : List Issue}
    (hid : node.getKey "id" = some nodeId)
    (h : decisionCheckNode out node = .ok is) :
    is = (if ((aget out nodeId).getD []).length < 2 then [branchIssue nodeId] else [])
      ++ ((aget out nodeId).getD []).flatMap (fun e =>
          if condEmpty e then [missingCondIssue nodeId (e.get "to")] else []) := by
  rw [decisionCheckNode, hid] at h
  simp only [exbind_ok] at h
  cases hc : condIssues nodeId ((aget out nodeId).getD []) with
  | error err => rw [hc, exbind_err] at h; cases h
  | ok conds =>
    rw [hc, exbind_ok] at h
    cases h
    rw [condIssues_spec hc]

theorem decisionCheckNode_total {out : Adj} {node nodeId : Value}
    (hid : node.getKey "id" = some nodeId)
    (hconds : ∀ e ∈ (aget out nodeId).getD [],
      ∃ s, pyOrEmptyStrip (e.get "condition") = .ok s) :
    ∃ is, decisionCheckNode out node = .ok is := by
  obtain ⟨cs, hcs⟩ := condIssues_total hconds
  rw [decisionCheckNode, hid]
  simp only [exbind_ok]
  rw [hcs, exbind_ok]
  exact ⟨_, rfl⟩

theorem decisionCheckNode_types {out : Adj} {node : Value} {is : List Issue}
    (h : decisionCheckNode out node = .ok is) :
    ∀ i ∈ is, i.type = "decision_branch_count" ∨ i.type = "missing_condition" := by
  cases hid : node.getKey "id" with
  | none =>
    rw [decisionCheckNode, hid] at h
    simp only [exbind_err] at h
    cases h
  | some nodeId =>
    intro i hi
    rw [decisionCheckNode_spec hid h] at hi
    rcases List.mem_append.mp hi with hi | hi
    · left
      split at hi
      · simp at hi
        rw [hi]
        rfl
      · cases hi
    · right
      obtain ⟨e, _, hie⟩ := List.mem_flatMap.mp hi
      split at hie
      · simp at hie
        rw [hie]
        rfl
      · cases hie

theorem decisionIssuesAll_total {out : Adj} :
    ∀ {nodes : List Value},
    (∀ n ∈ nodes, ∃ is, decisionCheckNode out n = .ok is) →
    ∃ dIs, decisionIssuesAll out nodes = .ok dIs := by
  intro nodes
  induction nodes with
  | nil => intro _; exact ⟨_, rfl⟩
  | cons n rest ih =>
    intro h
    obtain ⟨is, his⟩ := h n (by simp)
    obtain ⟨dIs, hdIs⟩ := ih (fun x hx => h x (List.mem_cons_of_mem _ hx))
    rw [decisionIssuesAll, his, exbind_ok, hdIs, exbind_ok]
    exact ⟨_, rfl⟩

theorem decisionIssuesAll_mem {out : Adj} :
    ∀ {nodes : List Value} {dIs : List Issue},
    decisionIssuesAll out nodes = .ok dIs →
    ∀ n ∈ nodes, ∀ {is : List Issue}, decisionCheckNode out n = .ok is →
    ∀ i ∈ is, i ∈ dIs := by
  intro nodes
  induction nodes with
  | nil => intro dIs _ n hn; cases hn
  | cons m rest ih =>
    intro dIs h n hn is his i hi
    rw [decisionIssuesAll] at h
    cases hm : decisionCheckNode out m with
    | error err => rw [hm, exbind_err] at h; cases h
    | ok here =>
      rw [hm, exbind_ok] at h
      cases hrest : decisionIssuesAll out rest with
      | error err => rw [hrest, exbind_err] at h; cases h
      | ok more =>
        rw [hrest, exbind_ok] at h
        cases h
        rcases List.mem_cons.mp hn with hn | hn
        · subst hn
          rw [his] at hm
          cases hm
          exact List.mem_append.mpr (Or.inl hi)
        · exact List.mem_append.mpr (Or.inr (ih hrest n hn his i hi))

theorem decisionIssuesAll_types {out : Adj} :
    ∀ {nodes : List Value} {dIs : List Issue},
    decisionIssuesAll out nodes = .ok dIs →
    ∀ i ∈ dIs, i.type = "decision_branch_count" ∨ i.type = "missing_condition" := by
  intro nodes
  induction nodes with
  | nil =>
    intro dIs h i hi
    rw [decisionIssuesAll] at h
    cases h
    cases hi
  | cons m rest ih =>
    intro dIs h i hi
    rw [decisionIssuesAll] at h
    cases hm : decisionCheckNode out m with
    | error err => rw [hm, exbind_err] at h; cases h
    | ok here =>
      rw [hm, exbind_ok] at h
      cases hrest : decisionIssuesAll out rest with
      | error err => rw [hrest, exbind_err] at h; cases h
      | ok more =>
        rw [hrest, exbind_ok] at h
        cases h
        rcases List.mem_append.mp hi with hi | hi
        · exact decisionCheckNode_types hm i hi
        · exact ih hrest i hi

/-! ## Helper lemmas: cardinality, topology, issue segments -/

theorem startEndIssues_start_iff (t : Table) :
    (∃ i ∈ startEndIssues t, i.type = "start_node_count") ↔ (startNodes t).length ≠ 1 := by
  rw [startEndIssues]
  by_cases hs : (startNodes t).length = 1 <;>
    by_cases he : (endNodes t).length = 0 <;>
      simp [hs, he, startIssue, endIssue]

theorem startEndIssues_end_iff (t : Table) :
    (∃ i ∈ startEndIssues t, i.type = "end_node_count") ↔ (endNodes t).length = 0 := by
  rw [startEndIssues]
  by_cases hs : (startNodes t).length = 1 <;>
    by_cases he : (endNodes t).length = 0 <;>
      simp [hs, he, startIssue, endIssue]

theorem startEndIssues_start_msg (t : Table) :
    ∀ i ∈ startEndIssues t, i.type = "start_node_count" →
      i.message = (startIssue (startNodes t).length).message := by
  rw [startEndIssues]
  by_cases hs : (startNodes t).length = 1 <;>
    by_cases he : (endNodes t).length = 0 <;>
      simp_all [startIssue, endIssue]

theorem startEndIssues_nil {t : Table}
    (hs : (startNodes t).length = 1) (he : (endNodes t).length ≠ 0) :
    startEndIssues t = [] := by
  rw [startEndIssues]
  simp [hs, he]

theorem startEndIssues_types (t : Table) :
    ∀ i ∈ startEndIssues t, i.type = "start_node_count" ∨ i.type = "end_node_count" := by
  rw [startEndIssues]
  by_cases hs : (startNodes t).length = 1 <;>
    by_cases he : (endNodes t).length = 0 <;>
      simp [hs, he, startIssue, endIssue]

theorem topoIssues_types (inc out : Adj) :
    ∀ {t : Table}, ∀ i ∈ topoIssues inc out t,
      i.type = "no_incoming_edge" ∨ i.type = "no_outgoing_edge" := by
  intro t
  induction t with
  | nil => intro i hi; cases hi
  | cons p rest ih =>
    intro i hi
    rw [topoIssues] at hi
    rcases List.mem_append.mp hi with hi | hi
    · rcases List.mem_append.mp hi with hi | hi
      · split at hi
        · simp at hi
          rw [hi]
          left
          rfl
        · cases hi
      · split at hi
        · simp at hi
          rw [hi]
          right
          rfl
        · cases hi
    · exact ih i hi

theorem topoIssues_nil {inc out : Adj} :
    ∀ {t : Table},
    (∀ p ∈ t,
      (p.2.get "type" ≠ .str "start" → ((aget inc p.1).getD []).isEmpty = false)
      ∧ (p.2.get "type" ≠ .str "end" → ((aget out p.1).getD []).isEmpty = false)) →
    topoIssues inc out t = [] := by
  intro t
  induction t with
  | nil => intro _; rfl
  | cons p rest ih =>
    intro h
    have hp := h p (by simp)
    rw [topoIssues]
    have h1 : (p.2.get "type" != .str "start" && ((aget inc p.1).getD []).isEmpty) = false := by
      by_cases hty : p.2.get "type" = .str "start"
      · simp [hty]
      · simp [hp.1 hty]
    have h2 : (p.2.get "type" != .str "end" && ((aget out p.1).getD []).isEmpty) = false := by
      by_cases hty : p.2.get "type" = .str "end"
      · simp [hty]
      · simp [hp.2 hty]
    rw [h1, h2]
    simp only [if_false, Bool.false_eq_true, List.nil_append]
    exact ih (fun q hq => h q (List.mem_cons_of_mem _ hq))

theorem edgeIssuesOf_types (t : Table) (e : Value) :
    ∀ i ∈ edgeIssuesOf t e,
      i.type = "edge_source_missing" ∨ i.type = "edge_target_missing" := by
  rw [edgeIssuesOf]
  by_cases h1 : (tget t (e.get "from")).isSome = true <;>
    by_cases h2 : (tget t (e.get "to")).isSome = true <;>
      simp [h1, h2, srcIssue, tgtIssue]

theorem edgeIssuesOf_nil {t : Table} {e : Value}
    (h1 : (tget t (e.get "from")).isSome = true)
    (h2 : (tget t (e.get "to")).isSome = true) :
    edgeIssuesOf t e = [] := by
  rw [edgeIssuesOf]
  simp [h1, h2]

/-! ## Helper lemmas: running `validate_flow` on shaped input -/

theorem validate_flow_run {d : List (String × Value)} {ns es : List Value}
    {t : Table} {is2 : List Issue} {inc out : Adj} {dIs : List Issue}
    (hn : (dget d "nodes").getD .none = .list ns)
    (he : (dget d "edges").getD .none = .list es)
    (ht : buildNodeTable ns = .ok t)
    (hel : edgeLoop t (es.filter Value.isDict)
        ((if t.isEmpty then [noNodesIssue] else []) ++ startEndIssues t)
        (initAdj t) (initAdj t) = .ok (is2, inc, out))
    (hdi : decisionIssuesAll out (decisionNodes t) = .ok dIs) :
    validate_flow (.dict d) = .ok
      ⟨(is2 ++ topoIssues inc out t ++ dIs).isEmpty,
        is2 ++ topoIssues inc out t ++ dIs⟩ := by
  rw [validate_flow.eq_def]
  simp only [hn, he]
  rw [ht, exbind_ok, hel, exbind_ok, hdi, exbind_ok]

theorem validate_flow_inv {d : List (String × Value)} {ns es : List Value} {r : Report}
    (hn : (dget d "nodes").getD .none = .list ns)
    (he : (dget d "edges").getD .none = .list es)
    (h : validate_flow (.dict d) = .ok r) :
    ∃ t is2 inc out dIs,
      buildNodeTable ns = .ok t ∧
      edgeLoop t (es.filter Value.isDict)
        ((if t.isEmpty then [noNodesIssue] else []) ++ startEndIssues t)
        (initAdj t) (initAdj t) = .ok (is2, inc, out) ∧
      decisionIssuesAll out (decisionNodes t) = .ok dIs ∧
      r = ⟨(is2 ++ topoIssues inc out t ++ dIs).isEmpty,
          is2 ++ topoIssues inc out t ++ dIs⟩ := by
  rw [validate_flow.eq_def] at h
  simp only [hn, he] at h
  cases ht : buildNodeTable ns with
  | error err => rw [ht, exbind_err] at h; cases h
  | ok t =>
    rw [ht, exbind_ok] at h
    cases hel : edgeLoop t (es.filter Value.isDict)
        ((if t.isEmpty then [noNodesIssue] else []) ++ startEndIssues t)
        (initAdj t) (initAdj t) with
    | error err => rw [hel, exbind_err] at h; cases h
    | ok trip =>
      obtain ⟨is2, inc, out⟩ := trip
      rw [hel, exbind_ok] at h
      cases hdi : decisionIssuesAll out (decisionNodes t) with
      | error err => rw [hdi, exbind_err] at h; cases h
      | ok dIs =>
        rw [hdi, exbind_ok] at h
        cases h
        exact ⟨t, is2, inc, out, dIs, rfl, hel, hdi, rfl⟩

/-! ## Helper lemmas: the diagram compiler -/

theorem format_node_total {node i : Value}
    (hid : node.getKey "id" = some i)
    (hlab : strOrFalsy (node.get "label") = true) :
    ∃ s, format_node node = .ok s := by
  obtain ⟨l, hl⟩ := pyOrEmptyReplace_ok hlab
  rw [format_node, hl, exbind_ok, hid]
  simp only [exbind_ok]
  by_cases h1 : (node.get "type" == Value.str "start" || node.get "type" == Value.str "end") = true
  · rw [if_pos h1]
    exact ⟨_, rfl⟩
  · rw [if_neg h1]
    by_cases h2 : (node.get "type" == Value.str "decision") = true
    · rw [if_pos h2]
      exact ⟨_, rfl⟩
    · rw [if_neg h2]
      exact ⟨_, rfl⟩

theorem nodeLines_total :
    ∀ {t : Table}, (∀ p ∈ t, ∃ s, format_node p.2 = .ok s) →
    ∃ ls, nodeLines t = .ok ls := by
  intro t
  induction t with
  | nil => intro _; exact ⟨_, rfl⟩
  | cons p rest ih =>
    intro h
    obtain ⟨s, hs⟩ := h p (by simp)
    obtain ⟨ls, hls⟩ := ih (fun q hq => h q (List.mem_cons_of_mem _ hq))
    rw [nodeLines, hs, exbind_ok, hls, exbind_ok]
    exact ⟨_, rfl⟩

theorem edgeLine_total {e : Value}
    (h : e.isDict = true → strOrFalsy (e.get "condition") = true) :
    ∃ ls, edgeLine e = .ok ls := by
  cases e with
  | dict des =>
    obtain ⟨s, hs⟩ := pyOrEmptyStrip_ok (h rfl)
    rw [edgeLine, hs, exbind_ok]
    by_cases h1 : (!((Value.dict des).get "from").truthy
        || ((Value.dict des).get "to").truthy) = true
    · rw [if_pos h1]
      exact ⟨_, rfl⟩
    · rw [if_neg h1]
      by_cases h2 : (!s.data.isEmpty) = true
      · rw [if_pos h2]
        exact ⟨_, rfl⟩
      · rw [if_neg h2]
        exact ⟨_, rfl⟩
  | none => exact ⟨_, rfl⟩
  | bool b => exact ⟨_, rfl⟩
  | int n => exact ⟨_, rfl⟩
  | str s => exact ⟨_, rfl⟩
  | list xs => exact ⟨_, rfl⟩

theorem edgeLines_total :
    ∀ {es : List Value},
    (∀ e ∈ es, e.isDict = true → strOrFalsy (e.get "condition") = true) →
    ∃ ls, edgeLines es = .ok ls := by
  intro es
  induction es with
  | nil => intro _; exact ⟨_, rfl⟩
  | cons e rest ih =>
    intro h
    obtain ⟨ls, hls⟩ := edgeLine_total (h e (by simp))
    obtain ⟨more, hmore⟩ := ih (fun x hx => h x (List.mem_cons_of_mem _ hx))
    rw [edgeLines, hls, exbind_ok, hmore, exbind_ok]
    exact ⟨_, rfl⟩

theorem edgeLines_spec :
    ∀ {es : List Value} {ls : List String},
    edgeLines es = .ok ls →
    ls = es.flatMap (fun e => ((edgeLine e).toOption).getD []) := by
  intro es
  induction es with
  | nil =>
    intro ls h
    rw [edgeLines] at h
    cases h
    simp
  | cons e rest ih =>
    intro ls h
    rw [edgeLines] at h
    cases hl : edgeLine e with
    | error err => rw [hl, exbind_err] at h; cases h
    | ok here =>
      rw [hl, exbind_ok] at h
      cases hm : edgeLines rest with
      | error err => rw [hm, exbind_err] at h; cases h
      | ok more =>
        rw [hm, exbind_ok] at h
        cases h
        rw [ih hm, List.flatMap_cons, hl]
        rfl

theorem flow_to_mermaid_run {d : List (String × Value)} {ns es : List Value}
    {t : Table} {nls els : List String}
    (hn : (dget d "nodes").getD (.list []) = .list ns)
    (he : (dget d "edges").getD (.list []) = .list es)
    (ht : buildNodeTable ns = .ok t)
    (hnl : nodeLines t = .ok nls)
    (hel : edgeLines es = .ok els) :
    flow_to_mermaid (.dict d) = .ok
      ⟨(dget d "title").getD (.str "Untitled Flow"),
        joinLines ("flowchart TD" :: (nls ++ els))⟩ := by
  rw [flow_to_mermaid.eq_def]
  simp only [hn, he]
  rw [ht, exbind_ok, hnl, exbind_ok, hel, exbind_ok]

theorem flow_to_mermaid_badshape {d : List (String × Value)}
    (h : (((dget d "nodes").getD (.list [])).isList
        && ((dget d "edges").getD (.list [])).isList) = false) :
    flow_to_mermaid (.dict d) = .ok
      ⟨(dget d "title").getD (.str "Invalid Flow"),
        "flowchart TD\n ERR[Invalid flow: nodes/edges not lists]\n"⟩ := by
  cases hv1 : (dget d "nodes").getD (.list []) <;>
    cases hv2 : (dget d "edges").getD (.list []) <;>
      rw [flow_to_mermaid.eq_def] <;>
      simp only [hv1, hv2] <;>
      first
        | rfl
        | (rw [hv1, hv2] at h; simp [Value.isList] at h)

/-! ## Helper lemmas: the TaskFlow serialisation round-trip -/

theorem NodeType_ofValue_value (ty : NodeType) : NodeType.ofValue (.str ty.value) = .ok ty := by
  cases ty <;> rfl

theorem Node_from_to (n : Node) : Node.from_val (Node.to_dict n) = .ok n := by
  obtain ⟨i, l, a, ty⟩ := n
  rw [Node.from_val]
  have h1 : pyIndex (Node.to_dict ⟨i, l, a, ty⟩) "id" = .ok i := rfl
  have h2 : pyIndex (Node.to_dict ⟨i, l, a, ty⟩) "label" = .ok l := rfl
  have h3 : pyIndex (Node.to_dict ⟨i, l, a, ty⟩) "actor" = .ok a := rfl
  have h4 : pyIndex (Node.to_dict ⟨i, l, a, ty⟩) "type" = .ok (.str ty.value) := rfl
  rw [h1, exbind_ok, h2, exbind_ok, h3, exbind_ok, h4, exbind_ok,
    NodeType_ofValue_value, exbind_ok]

theorem Edge_from_to (e : Edge) : Edge.from_val (Edge.to_dict e) = .ok e := by
  obtain ⟨s, tg, c⟩ := e
  rfl

theorem nodesFromVals_map (l : List Node) :
    nodesFromVals (l.map Node.to_dict) = .ok l := by
  induction l with
  | nil => rfl
  | cons n rest ih =>
    rw [List.map_cons, nodesFromVals, Node_from_to, exbind_ok, ih, exbind_ok]

theorem edgesFromVals_map (l : List Edge) :
    edgesFromVals (l.map Edge.to_dict) = .ok l := by
  induction l with
  | nil => rfl
  | cons e rest ih =>
    rw [List.map_cons, edgesFromVals, Edge_from_to, exbind_ok, ih, exbind_ok]

theorem TaskFlow_from_to (t : TaskFlow) :
    TaskFlow.from_dict (TaskFlow.to_dict t) = .ok t := by
  obtain ⟨ti, ac, nodes, edges⟩ := t
  rw [TaskFlow.to_dict, TaskFlow.from_dict]
  have h1 : dget [("title", ti), ("actors", ac),
      ("nodes", Value.list (nodes.map Node.to_dict)),
      ("edges", Value.list (edges.map Edge.to_dict))] "nodes"
      = some (.list (nodes.map Node.to_dict)) := rfl
  have h2 : dget [("title", ti), ("actors", ac),
      ("nodes", Value.list (nodes.map Node.to_dict)),
      ("edges", Value.list (edges.map Edge.to_dict))] "edges"
      = some (.list (edges.map Edge.to_dict)) := rfl
  have h3 : dget [("title", ti), ("actors", ac),
      ("nodes", Value.list (nodes.map Node.to_dict)),
      ("edges", Value.list (edges.map Edge.to_dict))] "title" = some ti := rfl
  have h4 : dget [("title", ti), ("actors", ac),
      ("nodes", Value.list (nodes.map Node.to_dict)),
      ("edges", Value.list (edges.map Edge.to_dict))] "actors" = some ac := rfl
  rw [h1, h2, h3, h4]
  simp only [Option.getD_some]
  rw [show pyIter (Value.list (nodes.map Node.to_dict)) = .ok (nodes.map Node.to_dict) from rfl,
    exbind_ok, nodesFromVals_map, exbind_ok,
    show pyIter (Value.list (edges.map Edge.to_dict)) = .ok (edges.map Edge.to_dict) from rfl,
    exbind_ok, edgesFromVals_map, exbind_ok]

theorem Node_from_val_wf {n : Value} (h : wfNodeDesc n = true) :
    ∃ node : Node, Node.from_val n = .ok node ∧ nodeFieldsEq n node.to_dict := by
  cases n with
  | dict es =>
    rw [wfNodeDesc] at h
    simp only [Bool.and_eq_true] at h
    obtain ⟨⟨⟨⟨-, hid⟩, hlab⟩, hact⟩, hty⟩ := h
    rw [Option.isSome_iff_exists] at hid hlab hact
    obtain ⟨i, hid⟩ := hid
    obtain ⟨l, hlab⟩ := hlab
    obtain ⟨a, hact⟩ := hact
    have hidx1 : pyIndex (Value.dict es) "id" = .ok i := by
      rw [pyIndex]
      rw [show dget es "id" = some i from hid]
    have hidx2 : pyIndex (Value.dict es) "label" = .ok l := by
      rw [pyIndex]
      rw [show dget es "label" = some l from hlab]
    have hidx3 : pyIndex (Value.dict es) "actor" = .ok a := by
      rw [pyIndex]
      rw [show dget es "actor" = some a from hact]
    cases hgt : (Value.dict es).getKey "type" with
    | none => rw [hgt] at hty; cases hty
    | some tv =>
      cases tv with
      | str ty =>
        rw [hgt] at hty
        have hidx4 : pyIndex (Value.dict es) "type" = .ok (.str ty) := by
          rw [pyIndex]
          rw [show dget es "type" = some (.str ty) from hgt]
        have hof : ∃ nty : NodeType, NodeType.ofValue (.str ty) = .ok nty
            ∧ nty.value = ty := by
          simp only [Bool.or_eq_true, decide_eq_true_eq] at hty
          rcases hty with ((h | h) | h) | h <;> subst h
          · exact ⟨.START, rfl, rfl⟩
          · exact ⟨.PROCESS, rfl, rfl⟩
          · exact ⟨.DECISION, rfl, rfl⟩
          · exact ⟨.END, rfl, rfl⟩
        obtain ⟨nty, hof, hval⟩ := hof
        refine ⟨⟨i, l, a, nty⟩, ?_, ?_⟩
        · rw [Node.from_val, hidx1, exbind_ok, hidx2, exbind_ok, hidx3, exbind_ok,
            hidx4, exbind_ok, hof, exbind_ok]
        · refine ⟨?_, ?_, ?_, ?_⟩ <;>
            simp [Node.to_dict, Value.get, dget, hid, hlab, hact, hgt, hval] <;>
            simp_all [Value.getKey]
      | none => rw [hgt] at hty; cases hty
      | bool b => rw [hgt] at hty; cases hty
      | int m => rw [hgt] at hty; cases hty
      | list xs => rw [hgt] at hty; cases hty
      | dict es2 => rw [hgt] at hty; cases hty
  | none => rw [wfNodeDesc] at h; simp [Value.isDict] at h
  | bool b => rw [wfNodeDesc] at h; simp [Value.isDict] at h
  | int m => rw [wfNodeDesc] at h; simp [Value.isDict] at h
  | str s => rw [wfNodeDesc] at h; simp [Value.isDict] at h
  | list xs => rw [wfNodeDesc] at h; simp [Value.isDict] at h

theorem Edge_from_val_wf {e : Value} (h : wfEdgeDesc e = true) :
    ∃ edge : Edge, Edge.from_val e = .ok edge ∧ edgeFieldsEq e edge.to_dict := by
  cases e with
  | dict es =>
    rw [wfEdgeDesc] at h
    simp only [Bool.and_eq_true] at h
    obtain ⟨⟨-, hfrom⟩, hto⟩ := h
    rw [Option.isSome_iff_exists] at hfrom hto
    obtain ⟨sv, hfrom⟩ := hfrom
    obtain ⟨tv, hto⟩ := hto
    have hidx1 : pyIndex (Value.dict es) "from" = .ok sv := by
      rw [pyIndex]
      rw [show dget es "from" = some sv from hfrom]
    have hidx2 : pyIndex (Value.dict es) "to" = .ok tv := by
      rw [pyIndex]
      rw [show dget es "to" = some tv from hto]
    have hfrom2 : dget es "from" = some sv := hfrom
    have hto2 : dget es "to" = some tv := hto
    refine ⟨⟨sv, tv, (Value.dict es).get "condition"⟩, ?_, ?_⟩
    · rw [Edge.from_val, hidx1, exbind_ok, hidx2, exbind_ok]
    · refine ⟨?_, ?_, ?_⟩ <;> simp [Edge.to_dict, Value.get, dget, hfrom2, hto2]
  | none => rw [wfEdgeDesc] at h; simp [Value.isDict] at h
  | bool b => rw [wfEdgeDesc] at h; simp [Value.isDict] at h
  | int m => rw [wfEdgeDesc] at h; simp [Value.isDict] at h
  | str s => rw [wfEdgeDesc] at h; simp [Value.isDict] at h
  | list xs => rw [wfEdgeDesc] at h; simp [Value.isDict] at h

theorem nodesFromVals_wf :
    ∀ {ns : List Value}, (∀ n ∈ ns, wfNodeDesc n = true) →
    ∃ nodes : List Node, nodesFromVals ns = .ok nodes
      ∧ List.Forall₂ nodeFieldsEq ns (nodes.map Node.to_dict) := by
  intro ns
  induction ns with
  | nil => intro _; exact ⟨[], rfl, List.Forall₂.nil⟩
  | cons n rest ih =>
    intro h
    obtain ⟨node, hnode, hfields⟩ := Node_from_val_wf (h n (by simp))
    obtain ⟨nodes, hnodes, hall⟩ := ih (fun x hx => h x (List.mem_cons_of_mem _ hx))
    refine ⟨node :: nodes, ?_, ?_⟩
    · rw [nodesFromVals, hnode, exbind_ok, hnodes, exbind_ok]
    · exact List.Forall₂.cons hfields hall

theorem edgesFromVals_wf :
    ∀ {es : List Value}, (∀ e ∈ es, wfEdgeDesc e = true) →
    ∃ edges : List Edge, edgesFromVals es = .ok edges
      ∧ List.Forall₂ edgeFieldsEq es (edges.map Edge.to_dict) := by
  intro es
  induction es with
  | nil => intro _; exact ⟨[], rfl, List.Forall₂.nil⟩
  | cons e rest ih =>
    intro h
    obtain ⟨edge, hedge, hfields⟩ := Edge_from_val_wf (h e (by simp))
    obtain ⟨edges, hedges, hall⟩ := ih (fun x hx => h x (List.mem_cons_of_mem _ hx))
    refine ⟨edge :: edges, ?_, ?_⟩
    · rw [edgesFromVals, hedge, exbind_ok, hedges, exbind_ok]
    · exact List.Forall₂.cons hfields hall

/-! ## Bridging lemmas for the safety predicates -/

theorem isList_exists {v : Value} (h : v.isList = true) : ∃ xs, v = .list xs := by
  cases v <;> first | exact ⟨_, rfl⟩ | simp [Value.isList] at h

theorem edgeSafe_parts {e : Value} (hd : e.isDict = true) (h : edgeSafe e = true) :
    (e.get "from").hashable = true ∧ (e.get "to").hashable = true
      ∧ strOrFalsy (e.get "condition") = true := by
  cases e with
  | dict des =>
    rw [edgeSafe] at h
    simpa [and_assoc] using h
  | none => simp [Value.isDict] at hd
  | bool b => simp [Value.isDict] at hd
  | int n => simp [Value.isDict] at hd
  | str s => simp [Value.isDict] at hd
  | list xs => simp [Value.isDict] at hd

theorem edgeSafeM_parts {e : Value} (hd : e.isDict = true) (h : edgeSafeM e = true) :
    strOrFalsy (e.get "condition") = true := by
  cases e with
  | dict des => rw [edgeSafeM] at h; exact h
  | none => simp [Value.isDict] at hd
  | bool b => simp [Value.isDict] at hd
  | int n => simp [Value.isDict] at hd
  | str s => simp [Value.isDict] at hd
  | list xs => simp [Value.isDict] at hd

theorem nodeSafeM_imp {n : Value} (h : nodeSafeM n = true) : nodeSafe n = true := by
  rw [nodeSafeM] at h
  rw [nodeSafe]
  cases hid : n.getKey "id" with
  | none => rfl
  | some i =>
    rw [hid] at h
    simp at h ⊢
    exact h.1

theorem nodeSafeM_parts {n i : Value} (hid : n.getKey "id" = some i)
    (h : nodeSafeM n = true) :
    i.hashable = true ∧ strOrFalsy (n.get "label") = true := by
  rw [nodeSafeM, hid] at h
  simpa using h

theorem validate_flow_badshape {d : List (String × Value)}
    (h : (((dget d "nodes").getD .none).isList
        && ((dget d "edges").getD .none).isList) = false) :
    validate_flow (.dict d) = .ok ⟨false, [invalidStructureIssue]⟩ := by
  cases hv1 : (dget d "nodes").getD .none <;>
    cases hv2 : (dget d "edges").getD .none <;>
      rw [validate_flow.eq_def] <;>
      simp only [hv1, hv2] <;>
      first
        | rfl
        | (rw [hv1, hv2] at h; simp [Value.isList] at h)

/-! ## The claims -/

/-- Claim C1, counterexample: `validate_flow` is not total on arbitrary
inputs.  On a flow whose node entry carries an unhashable (list-valued)
`id`, the node-table dict comprehension hashes the id and raises
`TypeError`, so no report is returned. -/
theorem C1_counterexample :
    validate_flow unhashableIdFlow = .error .typeError := rfl

/-- Claim C1, amended: for every input value whose dict node entries have
hashable ids and whose dict edge entries have hashable `from`/`to` values
and a string-or-falsy `condition` (`SafeFlow`), `validate_flow` returns a
report `{valid, issues}` and never raises, with `valid` true exactly when
the issue list is empty. -/
theorem C1_validate_flow_total (flow : Value) (h : SafeFlow flow = true) :
    ∃ r : Report, validate_flow flow = .ok r ∧ r.valid = r.issues.isEmpty := by
  cases flow with
  | dict d =>
    by_cases hshape : (((dget d "nodes").getD .none).isList
        && ((dget d "edges").getD .none).isList) = true
    · simp only [Bool.and_eq_true] at hshape
      obtain ⟨ns, hv1⟩ := isList_exists hshape.1
      obtain ⟨es, hv2⟩ := isList_exists hshape.2
      rw [SafeFlow.eq_def] at h
      simp only [hv1, hv2] at h
      simp only [Bool.and_eq_true, List.all_eq_true] at h
      obtain ⟨hns, hes⟩ := h
      obtain ⟨t, ht⟩ := @buildNodeTableAux_total ns [] hns
      have hdes : ∀ e ∈ es.filter Value.isDict,
          (e.get "from").hashable = true ∧ (e.get "to").hashable = true := by
        intro e he
        have h1 := hes e (List.mem_of_mem_filter he)
        have h2 := List.of_mem_filter he
        exact ⟨(edgeSafe_parts h2 h1).1, (edgeSafe_parts h2 h1).2.1⟩
      obtain ⟨⟨is2, inc, out⟩, hel⟩ := @edgeLoop_total t (es.filter Value.isDict)
        ((if t.isEmpty then [noNodesIssue] else []) ++ startEndIssues t)
        (initAdj t) (initAdj t) hdes
      have htq : ∀ p ∈ t, p.2.getKey "id" = some p.1 :=
        buildNodeTableAux_mem ht (by simp) (fun n hn i hi _ => hi)
      have hdec : ∀ node ∈ decisionNodes t,
          ∃ is, decisionCheckNode out node = .ok is := by
        intro node hnode
        obtain ⟨p, hp, hpe⟩ := List.mem_map.mp (List.mem_of_mem_filter hnode)
        have hid : node.getKey "id" = some p.1 := by
          rw [← hpe]
          exact htq p hp
        refine decisionCheckNode_total hid ?_
        intro e he
        have hout := edgeLoop_aget_out hel p.1
        rw [aget_initAdj] at hout
        cases htg : tget t p.1 with
        | none =>
          rw [htg] at hout
          simp at hout
          simp [hout] at he
        | some nv =>
          rw [htg] at hout
          simp only [Option.map_some, Option.map_some', List.nil_append] at hout
          simp only [hout, Option.getD_some] at he
          have hmem := List.mem_of_mem_filter he
          have hd2 := List.of_mem_filter hmem
          have hsafe := hes e (List.mem_of_mem_filter hmem)
          exact pyOrEmptyStrip_ok (edgeSafe_parts hd2 hsafe).2.2
      obtain ⟨dIs, hdi⟩ := decisionIssuesAll_total hdec
      exact ⟨_, validate_flow_run hv1 hv2 ht hel hdi, rfl⟩
    · exact ⟨_, validate_flow_badshape (by simpa using hshape), rfl⟩
  | none => exact ⟨_, rfl, rfl⟩
  | bool b => exact ⟨_, rfl, rfl⟩
  | int n => exact ⟨_, rfl, rfl⟩
  | str s => exact ⟨_, rfl, rfl⟩
  | list xs => exact ⟨_, rfl, rfl⟩

/-- Claim C1, witness: the ghost-edge flow satisfies `SafeFlow` and the
amended theorem yields its report. -/
theorem C1_validate_flow_total_witness :
    SafeFlow flowGhost = true
    ∧ (∃ r : Report, validate_flow flowGhost = .ok r ∧ r.valid = r.issues.isEmpty) :=
  ⟨rfl, C1_validate_flow_total flowGhost rfl⟩

/-- Claim C2: on a map-shaped flow with list-valued `nodes`/`edges`, the
compiler skips a dict edge entry exactly when it lacks a truthy `from` or
its `to` is truthy (`if not src or tgt: continue`); an edge with a truthy
`from` and falsy/absent `to` is rendered as one connector line (labelled
when the stripped condition is non-empty), and the rendered body of
`flow_to_mermaid` is the keyword line followed by the node lines and the
per-edge lines. -/
theorem C2_edge_skip :
    (∀ e : Value, e.isDict = true → ∀ ls, edgeLine e = .ok ls →
      ((ls = []) ↔ (!(e.get "from").truthy || (e.get "to").truthy) = true)
      ∧ ((e.get "from").truthy = true → (e.get "to").truthy = false →
          ∀ s, pyOrEmptyStrip (e.get "condition") = .ok s →
            ls = [if s.data.isEmpty
              then "     " ++ pyStr (e.get "from") ++ " --> " ++ pyStr (e.get "to")
              else "     " ++ pyStr (e.get "from") ++ " -->|" ++ escQuotes s ++ "| "
                ++ pyStr (e.get "to")]))
    ∧ (∀ (d : List (String × Value)) (ns es : List Value) (res : MermaidResult),
        (dget d "nodes").getD (.list []) = .list ns →
        (dget d "edges").getD (.list []) = .list es →
        flow_to_mermaid (.dict d) = .ok res →
        ∃ t nls els, buildNodeTable ns = .ok t ∧ nodeLines t = .ok nls
          ∧ edgeLines es = .ok els
          ∧ els = es.flatMap (fun e => ((edgeLine e).toOption).getD [])
          ∧ res.mermaid = joinLines ("flowchart TD" :: (nls ++ els))) := by
  constructor
  · intro e hd ls h
    cases e with
    | dict des =>
      rw [edgeLine] at h
      cases hs : pyOrEmptyStrip ((Value.dict des).get "condition") with
      | error err => rw [hs, exbind_err] at h; cases h
      | ok s =>
        rw [hs, exbind_ok] at h
        by_cases hskip : (!((Value.dict des).get "from").truthy
            || ((Value.dict des).get "to").truthy) = true
        · rw [if_pos hskip] at h
          cases h
          refine ⟨by simp [hskip], ?_⟩
          intro hfrom hto s' hs'
          rw [hfrom, hto] at hskip
          simp at hskip
        · rw [if_neg hskip] at h
          constructor
          · by_cases hb : (!s.data.isEmpty) = true
            · rw [if_pos hb] at h
              cases h
              simp [hskip]
            · rw [if_neg hb] at h
              cases h
              simp [hskip]
          · intro hfrom hto s' hs'
            cases hs'
            by_cases hb : s.data.isEmpty = true
            · rw [if_neg (by simp [hb])] at h
              cases h
              rw [if_pos hb]
            · rw [if_pos (by simp [hb])] at h
              cases h
              rw [if_neg hb]
    | none => simp [Value.isDict] at hd
    | bool b => simp [Value.isDict] at hd
    | int n => simp [Value.isDict] at hd
    | str s => simp [Value.isDict] at hd
    | list xs => simp [Value.isDict] at hd
  · intro d ns es res hn he h
    rw [flow_to_mermaid.eq_def] at h
    simp only [hn, he] at h
    cases ht : buildNodeTable ns with
    | error err => rw [ht, exbind_err] at h; cases h
    | ok t =>
      rw [ht, exbind_ok] at h
      cases hnl : nodeLines t with
      | error err => rw [hnl, exbind_err] at h; cases h
      | ok nls =>
        rw [hnl, exbind_ok] at h
        cases hel : edgeLines es with
        | error err => rw [hel, exbind_err] at h; cases h
        | ok els =>
          rw [hel, exbind_ok] at h
          cases h
          exact ⟨t, nls, els, rfl, hnl, rfl, edgeLines_spec hel, rfl⟩

/-- Claim C2, witness: the edge `{from: "a"}` (truthy source, absent target)
is rendered as the connector `a --> None`, while `{from: "s", to: "e"}`
(target present) renders nothing, as the skip condition requires. -/
theorem C2_edge_skip_witness :
    edgeLine (.dict [("from", .str "a")]) = .ok ["     a --> None"]
    ∧ edgeLine edgeSE = .ok []
    ∧ (!(edgeSE.get "from").truthy || (edgeSE.get "to").truthy) = true := by
  refine ⟨rfl, rfl, ?_⟩
  exact ((C2_edge_skip.1 edgeSE rfl [] rfl).1).mp rfl

/-- Claim C3: whenever the validator reports `valid = false`,
`build_task_flow` returns the fixed one-line placeholder diagram (the
compiler is not consulted: the result is independent of anything but the
report and the `title` key), and the title is the input's `"title"` value
when the input is a dict containing one, else the sentinel
`"Invalid Flow"`. -/
theorem C3_build_invalid (flow : Value) (r : Report)
    (hval : validate_flow flow = .ok r) (hinv : r.valid = false) :
    build_task_flow flow = .ok ⟨r,
      "flowchart TD\n ERR[Invalid flow input. See issues list.]\n",
      match flow with
      | .dict d => (dget d "title").getD (.str "Invalid Flow")
      | _ => .str "Invalid Flow"⟩ := by
  rw [build_task_flow, hval, exbind_ok, hinv]
  simp only [Bool.not_false, if_true]
  cases flow <;> rfl

/-- Claim C3, witness: a dict input failing the shape gate keeps its own
title and receives the placeholder diagram. -/
theorem C3_build_invalid_witness :
    validate_flow (Value.dict [("title", .str "T")])
      = .ok ⟨false, [invalidStructureIssue]⟩
    ∧ build_task_flow (Value.dict [("title", .str "T")])
      = .ok ⟨⟨false, [invalidStructureIssue]⟩,
          "flowchart TD\n ERR[Invalid flow input. See issues list.]\n", .str "T"⟩ := by
  refine ⟨rfl, ?_⟩
  exact C3_build_invalid (Value.dict [("title", .str "T")])
    ⟨false, [invalidStructureIssue]⟩ rfl rfl

/-- Claim C5, counterexample: `flow_to_mermaid` is not total.  On a
map-shaped flow whose edge has the truthy non-string condition `1`,
`(e.get("condition") or "").strip()` raises `AttributeError`. -/
theorem C5_counterexample :
    flow_to_mermaid badCondFlow = .error .attributeError := rfl

/-- Claim C5, amended: `flow_to_mermaid` never raises on inputs whose node
ids are hashable and whose labels and edge conditions are strings or falsy
(`SafeMermaid`); on a non-dict it returns the sentinel error diagram, and on
a dict whose (defaulted) `nodes`/`edges` are not lists it returns the
shape-error diagram with the input title when present. -/
theorem C5_mermaid_total :
    (∀ flow : Value, SafeMermaid flow = true → ∃ res, flow_to_mermaid flow = .ok res)
    ∧ (∀ flow : Value, flow.isDict = false →
        flow_to_mermaid flow = .ok ⟨.str "Invalid Flow",
          "flowchart TD\n ERR[Invalid flow: not a dict]\n"⟩)
    ∧ (∀ d : List (String × Value),
        (((dget d "nodes").getD (.list [])).isList
          && ((dget d "edges").getD (.list [])).isList) = false →
        flow_to_mermaid (.dict d) = .ok
          ⟨(dget d "title").getD (.str "Invalid Flow"),
            "flowchart TD\n ERR[Invalid flow: nodes/edges not lists]\n"⟩) := by
  refine ⟨?_, ?_, fun d h => flow_to_mermaid_badshape h⟩
  · intro flow h
    cases flow with
    | dict d =>
      by_cases hshape : (((dget d "nodes").getD (.list [])).isList
          && ((dget d "edges").getD (.list [])).isList) = true
      · simp only [Bool.and_eq_true] at hshape
        obtain ⟨ns, hv1⟩ := isList_exists hshape.1
        obtain ⟨es, hv2⟩ := isList_exists hshape.2
        rw [SafeMermaid.eq_def] at h
        simp only [hv1, hv2] at h
        simp only [Bool.and_eq_true, List.all_eq_true] at h
        obtain ⟨hns, hes⟩ := h
        obtain ⟨t, ht⟩ := @buildNodeTableAux_total ns []
          (fun n hn => nodeSafeM_imp (hns n hn))
        have htq : ∀ p ∈ t, p.2.getKey "id" = some p.1 ∧ p.2 ∈ ns :=
          buildNodeTableAux_mem ht (by simp) (fun n hn i hi _ => ⟨hi, hn⟩)
        obtain ⟨nls, hnl⟩ := nodeLines_total (fun p hp =>
          format_node_total (htq p hp).1
            (nodeSafeM_parts (htq p hp).1 (hns p.2 (htq p hp).2)).2)
        obtain ⟨els, hel⟩ := edgeLines_total (fun e he hd =>
          edgeSafeM_parts hd (hes e he))
        exact ⟨_, flow_to_mermaid_run hv1 hv2 ht hnl hel⟩
      · exact ⟨_, flow_to_mermaid_badshape (by simpa using hshape)⟩
    | none => exact ⟨_, rfl⟩
    | bool b => exact ⟨_, rfl⟩
    | int n => exact ⟨_, rfl⟩
    | str s => exact ⟨_, rfl⟩
    | list xs => exact ⟨_, rfl⟩
  · intro flow hd
    cases flow with
    | dict d => simp [Value.isDict] at hd
    | none => rfl
    | bool b => rfl
    | int n => rfl
    | str s => rfl
    | list xs => rfl

/-- Claim C5, witness: the `s -> e` flow is `SafeMermaid` and compiles; the
integer `0` is not a dict and receives the sentinel error diagram. -/
theorem C5_mermaid_total_witness :
    SafeMermaid flowSE = true
    ∧ (∃ res, flow_to_mermaid flowSE = .ok res)
    ∧ flow_to_mermaid (.int 0) = .ok ⟨.str "Invalid Flow",
        "flowchart TD\n ERR[Invalid flow: not a dict]\n"⟩ :=
  ⟨rfl, C5_mermaid_total.1 flowSE rfl, C5_mermaid_total.2.1 (.int 0) rfl⟩

/-- Claim C9: in the validator edge loop over the dict-filtered edges,
`edge_source_missing` is emitted exactly for edges whose `from` is not a
table key, `edge_target_missing` exactly for edges whose `to` is not a table
key (both per `edgeIssuesOf`), and each edge joins the outgoing list of its
source and the incoming list of its target independently, so an edge with
one missing endpoint still appears on the side that resolves; non-dict edge
entries are removed by the filter without contributing any issue. -/
theorem C9_edge_adjacency (t : Table) (es : List Value) (seed is2 : List Issue)
    (inc out : Adj)
    (h : edgeLoop t (es.filter Value.isDict) seed (initAdj t) (initAdj t)
        = .ok (is2, inc, out)) :
    is2 = seed ++ (es.filter Value.isDict).flatMap (edgeIssuesOf t)
    ∧ (∀ e, edgeIssuesOf t e =
        (if (tget t (e.get "from")).isSome then [] else [srcIssue (e.get "from")])
          ++ (if (tget t (e.get "to")).isSome then [] else [tgtIssue (e.get "to")]))
    ∧ (∀ k, aget out k = if (tget t k).isSome
        then some ((es.filter Value.isDict).filter (fun e => e.get "from" == k))
        else Option.none)
    ∧ (∀ k, aget inc k = if (tget t k).isSome
        then some ((es.filter Value.isDict).filter (fun e => e.get "to" == k))
        else Option.none) := by
  refine ⟨edgeLoop_issues h, fun e => rfl, ?_, ?_⟩
  · intro k
    have h2 := edgeLoop_aget_out h k
    rw [aget_initAdj] at h2
    cases htg : tget t k with
    | none => rw [htg] at h2; simpa using h2
    | some v => rw [htg] at h2; simpa using h2
  · intro k
    have h2 := edgeLoop_aget_inc h k
    rw [aget_initAdj] at h2
    cases htg : tget t k with
    | none => rw [htg] at h2; simpa using h2
    | some v => rw [htg] at h2; simpa using h2

/-- Claim C9, witness: on `s -> e` plus the dangling `ghost -> s` edge, the
loop emits exactly the source-missing issue for `ghost`, and the dangling
edge still lands in the incoming list of the resolving target `s`. -/
theorem C9_edge_adjacency_witness :
    edgeLoop t0 ([edgeSE, edgeGhost].filter Value.isDict) [] (initAdj t0) (initAdj t0)
      = .ok ([srcIssue (.str "ghost")],
          [(.str "s", [edgeGhost]), (.str "e", [edgeSE])],
          [(.str "s", [edgeSE]), (.str "e", [])])
    ∧ aget [(.str "s", [edgeGhost]), (.str "e", [edgeSE])] (.str "s")
      = some [edgeGhost] := by
  constructor
  · rfl
  · have h := C9_edge_adjacency t0 [edgeSE, edgeGhost] []
      [srcIssue (.str "ghost")]
      [(.str "s", [edgeGhost]), (.str "e", [edgeSE])]
      [(.str "s", [edgeSE]), (.str "e", [])] rfl
    rw [h.2.2.2 (.str "s")]
    rfl

theorem issues_seg {A B C D E : List Issue} {i : Issue}
    (hi : i ∈ ((((A ++ B) ++ C) ++ D) ++ E)) :
    i ∈ A ∨ i ∈ B ∨ i ∈ C ∨ i ∈ D ∨ i ∈ E := by
  rcases List.mem_append.mp hi with h | h
  · rcases List.mem_append.mp h with h | h
    · rcases List.mem_append.mp h with h | h
      · rcases List.mem_append.mp h with h | h
        · exact Or.inl h
        · exact Or.inr (Or.inl h)
      · exact Or.inr (Or.inr (Or.inl h))
    · exact Or.inr (Or.inr (Or.inr (Or.inl h)))
  · exact Or.inr (Or.inr (Or.inr (Or.inr h)))

theorem issues_seg_in {A B C D E : List Issue} {i : Issue} (hi : i ∈ B) :
    i ∈ ((((A ++ B) ++ C) ++ D) ++ E) :=
  List.mem_append.mpr (Or.inl (List.mem_append.mpr (Or.inl
    (List.mem_append.mpr (Or.inl (List.mem_append.mpr (Or.inr hi)))))))

/-- Claim C7: past the two shape gates, for any returned report a
`start_node_count` issue appears exactly when the number of table nodes
typed `start` differs from 1, its message reports that count, and an
`end_node_count` issue appears exactly when no table node is typed `end`. -/
theorem C7_start_end_counts (d : List (String × Value)) (ns es : List Value)
    (r : Report) (t : Table)
    (hn : (dget d "nodes").getD .none = .list ns)
    (he : (dget d "edges").getD .none = .list es)
    (ht : buildNodeTable ns = .ok t)
    (hval : validate_flow (.dict d) = .ok r) :
    ((∃ i ∈ r.issues, i.type = "start_node_count") ↔ (startNodes t).length ≠ 1)
    ∧ (∀ i ∈ r.issues, i.type = "start_node_count" →
        i.message = "Flow should have exactly 1 start node, found "
          ++ toString (startNodes t).length ++ ".")
    ∧ ((∃ i ∈ r.issues, i.type = "end_node_count") ↔ (endNodes t).length = 0) := by
  obtain ⟨t', is2, inc, out, dIs, ht', hel, hdi, hr⟩ := validate_flow_inv hn he hval
  rw [ht] at ht'
  injection ht' with heq
  subst heq
  have hiss : r.issues = is2 ++ topoIssues inc out t ++ dIs := by rw [hr]
  have his2 := edgeLoop_issues hel
  subst his2
  have htypes : ∀ i ∈ (if t.isEmpty then [noNodesIssue] else []),
      i.type = "no_nodes" := by
    split
    · intro i hi
      simp at hi
      rw [hi]
      rfl
    · intro i hi
      cases hi
  have hedget : ∀ i ∈ (es.filter Value.isDict).flatMap (edgeIssuesOf t),
      i.type = "edge_source_missing" ∨ i.type = "edge_target_missing" := by
    intro i hi
    obtain ⟨e, _, hie⟩ := List.mem_flatMap.mp hi
    exact edgeIssuesOf_types t e i hie
  have hdect := decisionIssuesAll_types hdi
  have hsplit : ∀ i : Issue, i ∈ r.issues →
      i.type = "start_node_count" ∨ i.type = "end_node_count" →
      i ∈ startEndIssues t := by
    intro i hi hty
    rw [hiss] at hi
    rcases issues_seg hi with h | h | h | h | h
    · rcases hty with hty | hty <;>
        exact absurd (hty.symm.trans (htypes i h)) (by decide)
    · exact h
    · rcases hedget i h with h2 | h2 <;> rcases hty with hty | hty <;>
        exact absurd (hty.symm.trans h2) (by decide)
    · rcases topoIssues_types inc out i h with h2 | h2 <;> rcases hty with hty | hty <;>
        exact absurd (hty.symm.trans h2) (by decide)
    · rcases hdect i h with h2 | h2 <;> rcases hty with hty | hty <;>
        exact absurd (hty.symm.trans h2) (by decide)
  refine ⟨⟨?_, ?_⟩, ?_, ⟨?_, ?_⟩⟩
  · rintro ⟨i, hi, hty⟩
    exact (startEndIssues_start_iff t).mp ⟨i, hsplit i hi (Or.inl hty), hty⟩
  · intro hcount
    obtain ⟨i, hi, hty⟩ := (startEndIssues_start_iff t).mpr hcount
    refine ⟨i, ?_, hty⟩
    rw [hiss]
    exact issues_seg_in hi
  · intro i hi hty
    exact startEndIssues_start_msg t i (hsplit i hi (Or.inl hty)) hty
  · rintro ⟨i, hi, hty⟩
    exact (startEndIssues_end_iff t).mp ⟨i, hsplit i hi (Or.inr hty), hty⟩
  · intro hcount
    obtain ⟨i, hi, hty⟩ := (startEndIssues_end_iff t).mpr hcount
    refine ⟨i, ?_, hty⟩
    rw [hiss]
    exact issues_seg_in hi

/-- Claim C7, witness: the two-start no-edge flow yields a
`start_node_count` issue; its table has start count 2. -/
theorem C7_start_end_counts_witness :
    (startNodes t2S).length = 2
    ∧ (∃ i ∈ (Report.mk false
        [startIssue 2, endIssue,
          noOutgoingIssue (.str "s"), noOutgoingIssue (.str "s2")]).issues,
        i.type = "start_node_count") := by
  refine ⟨rfl, ?_⟩
  have h := C7_start_end_counts [("nodes", .list [nodeS, nodeS2]), ("edges", .list [])]
    [nodeS, nodeS2] [] (Report.mk false
      [startIssue 2, endIssue,
        noOutgoingIssue (.str "s"), noOutgoingIssue (.str "s2")]) t2S
    rfl rfl rfl rfl
  exact h.1.mpr (by decide)

/-- Claim C8: for a decision node of a shape-valid flow, the validator emits
a `decision_branch_count` issue iff the node has fewer than two outgoing
edges in the adjacency map; the `missing_condition` issues among the node
checks are exactly one per outgoing edge with an empty post-trim condition,
naming source and target; and every such issue lands in the report. -/
theorem C8_decision_checks (d : List (String × Value)) (ns es : List Value)
    (r : Report) (t : Table) (is2 : List Issue) (inc out : Adj)
    (node nodeId : Value) (is : List Issue)
    (hn : (dget d "nodes").getD .none = .list ns)
    (he : (dget d "edges").getD .none = .list es)
    (ht : buildNodeTable ns = .ok t)
    (hel : edgeLoop t (es.filter Value.isDict)
      ((if t.isEmpty then [noNodesIssue] else []) ++ startEndIssues t)
      (initAdj t) (initAdj t) = .ok (is2, inc, out))
    (hval : validate_flow (.dict d) = .ok r)
    (hnode : node ∈ decisionNodes t)
    (hid : node.getKey "id" = some nodeId)
    (hchk : decisionCheckNode out node = .ok is) :
    ((∃ i ∈ is, i.type = "decision_branch_count")
        ↔ ((aget out nodeId).getD []).length < 2)
    ∧ is.filter (fun i => i.type == "missing_condition")
        = ((aget out nodeId).getD []).flatMap (fun e =>
            if condEmpty e then [missingCondIssue nodeId (e.get "to")] else [])
    ∧ (∀ i ∈ is, i ∈ r.issues) := by
  obtain ⟨t', is2', inc', out', dIs, ht', hel', hdi, hr⟩ := validate_flow_inv hn he hval
  rw [ht] at ht'
  injection ht' with heq
  subst heq
  rw [hel] at hel'
  simp only [Except.ok.injEq, Prod.mk.injEq] at hel'
  obtain ⟨h1, h2, h3⟩ := hel'
  subst h1
  subst h2
  subst h3
  have hspec := decisionCheckNode_spec hid hchk
  refine ⟨⟨?_, ?_⟩, ?_, ?_⟩
  · rintro ⟨i, hi, hty⟩
    rw [hspec] at hi
    rcases List.mem_append.mp hi with hi | hi
    · by_contra hlen
      rw [if_neg hlen] at hi
      cases hi
    · obtain ⟨e, _, hie⟩ := List.mem_flatMap.mp hi
      split at hie
      · simp at hie
        rw [hie] at hty
        have hmc : ("missing_condition" : String) = "decision_branch_count" := hty
        exact absurd hmc (by decide)
      · cases hie
  · intro hlen
    refine ⟨branchIssue nodeId, ?_, rfl⟩
    rw [hspec]
    refine List.mem_append.mpr (Or.inl ?_)
    rw [if_pos hlen]
    exact List.mem_singleton.mpr rfl
  · rw [hspec, List.filter_append]
    have hfb : (if ((aget out nodeId).getD []).length < 2 then [branchIssue nodeId]
        else []).filter (fun i => i.type == "missing_condition") = [] := by
      split
      · rfl
      · rfl
    have hfc : ∀ l : List Value,
        (l.flatMap (fun e => if condEmpty e then [missingCondIssue nodeId (e.get "to")]
          else [])).filter (fun i => i.type == "missing_condition")
        = l.flatMap (fun e => if condEmpty e then [missingCondIssue nodeId (e.get "to")]
          else []) := by
      intro l
      induction l with
      | nil => rfl
      | cons e rest ih =>
        rw [List.flatMap_cons, List.filter_append, ih]
        congr 1
        split
        · rfl
        · rfl
    rw [hfb, hfc, List.nil_append]
  · intro i hi
    have hidIs := decisionIssuesAll_mem hdi node hnode hchk i hi
    have hiss : r.issues = is2 ++ topoIssues inc out t ++ dIs := by rw [hr]
    rw [hiss]
    exact List.mem_append.mpr (Or.inr hidIs)

/-- Claim C8, witness: the spec example — decision node `d` with a
conditioned edge to `a` and an unconditioned edge to `b` — has two outgoing
edges, no branch-count issue, and exactly the one missing-condition issue
targeting `b`. -/
theorem C8_decision_checks_witness :
    ((aget outD (.str "d")).getD []).length = 2
    ∧ ¬ (∃ i ∈ [missingCondIssue (.str "d") (.str "b")],
        i.type = "decision_branch_count")
    ∧ [missingCondIssue (.str "d") (.str "b")].filter
        (fun i => i.type == "missing_condition")
      = ((aget outD (.str "d")).getD []).flatMap (fun e =>
          if condEmpty e then [missingCondIssue (.str "d") (e.get "to")] else []) := by
  have h := C8_decision_checks
    [("nodes", .list [nodeSt, nodeD, nodeA, nodeB]),
      ("edges", .list [edgeStD, edgeDA, edgeDB])]
    [nodeSt, nodeD, nodeA, nodeB] [edgeStD, edgeDA, edgeDB]
    (Report.mk false [missingCondIssue (.str "d") (.str "b")]) tD [] incD outD
    nodeD (.str "d") [missingCondIssue (.str "d") (.str "b")]
    rfl rfl rfl rfl rfl (by decide) rfl rfl
  exact ⟨rfl, fun hex => absurd (h.1.mp hex) (by decide), h.2.1⟩

theorem condFlatMap_nil {nid : Value} :
    ∀ {outs : List Value}, (∀ e ∈ outs, condEmpty e = false) →
    outs.flatMap (fun e =>
      if condEmpty e then [missingCondIssue nid (e.get "to")] else []) = [] := by
  intro outs
  induction outs with
  | nil => intro _; rfl
  | cons e rest ih =>
    intro h
    rw [List.flatMap_cons, h e (by simp),
      ih (fun x hx => h x (List.mem_cons_of_mem _ hx))]
    rfl

theorem condIssues_nil {nid : Value} {outs : List Value}
    (h1 : ∀ e ∈ outs, ∃ s, pyOrEmptyStrip (e.get "condition") = .ok s)
    (h2 : ∀ e ∈ outs, condEmpty e = false) :
    condIssues nid outs = .ok [] := by
  obtain ⟨is, his⟩ := condIssues_total h1
  rw [his, condIssues_spec his, condFlatMap_nil h2]

theorem decisionCheckNode_nil {out : Adj} {node nodeId : Value}
    (hid : node.getKey "id" = some nodeId)
    (hbr : ¬ ((aget out nodeId).getD []).length < 2)
    (h1 : ∀ e ∈ (aget out nodeId).getD [],
      ∃ s, pyOrEmptyStrip (e.get "condition") = .ok s)
    (h2 : ∀ e ∈ (aget out nodeId).getD [], condEmpty e = false) :
    decisionCheckNode out node = .ok [] := by
  rw [decisionCheckNode, hid]
  simp only [exbind_ok]
  rw [condIssues_nil h1 h2, exbind_ok, if_neg hbr]
  rfl

theorem decisionIssuesAll_nil {out : Adj} :
    ∀ {nodes : List Value},
    (∀ n ∈ nodes, decisionCheckNode out n = .ok []) →
    decisionIssuesAll out nodes = .ok [] := by
  intro nodes
  induction nodes with
  | nil => intro _; rfl
  | cons n rest ih =>
    intro h
    rw [decisionIssuesAll, h n (by simp), exbind_ok,
      ih (fun x hx => h x (List.mem_cons_of_mem _ hx)), exbind_ok]
    rfl

theorem edgeFlatMap_nil {t : Table} :
    ∀ {des : List Value}, (∀ e ∈ des, edgeIssuesOf t e = []) →
    des.flatMap (edgeIssuesOf t) = [] := by
  intro des
  induction des with
  | nil => intro _; rfl
  | cons e rest ih =>
    intro h
    rw [List.flatMap_cons, h e (by simp),
      ih (fun x hx => h x (List.mem_cons_of_mem _ hx))]
    rfl

/-- Claim C4, counterexample: the `s -> e` flow extended with an edge from
the undeclared node `ghost` satisfies every hypothesis of the claim — one
start node, one end node, every non-start node with an incoming edge and
every non-end node with an outgoing edge in the validator-built adjacency,
and no decision nodes — yet `validate_flow` reports `valid = false` with an
`edge_source_missing` issue, because the claim's hypotheses do not exclude
edges whose endpoints name no node. -/
theorem C4_counterexample :
    (startNodes t0).length = 1
    ∧ (endNodes t0).length ≠ 0
    ∧ (∀ p ∈ t0, p.2.get "type" ≠ .str "start" →
        ((aget incG p.1).getD []).isEmpty = false)
    ∧ (∀ p ∈ t0, p.2.get "type" ≠ .str "end" →
        ((aget outG p.1).getD []).isEmpty = false)
    ∧ decisionNodes t0 = []
    ∧ edgeLoop t0 ([edgeSE, edgeGhost].filter Value.isDict)
        ((if t0.isEmpty then [noNodesIssue] else []) ++ startEndIssues t0)
        (initAdj t0) (initAdj t0) = .ok ([srcIssue (.str "ghost")], incG, outG)
    ∧ validate_flow flowGhost = .ok ⟨false, [srcIssue (.str "ghost")]⟩ :=
  ⟨rfl, by decide, by decide, by decide, rfl, rfl, rfl⟩

/-- Claim C4 (amended): with the additional referential-integrity hypothesis
that every dict edge's endpoints resolve in the node table, a flow with
exactly one start node, at least one end node, incoming edges on non-start
nodes, outgoing edges on non-end nodes, and at least two conditioned
outgoing edges on every decision node validates as `valid = true` with an
empty issue list. -/
theorem C4_valid_flow (d : List (String × Value)) (ns es : List Value)
    (t : Table) (is2 : List Issue) (inc out : Adj)
    (hn : (dget d "nodes").getD .none = .list ns)
    (he : (dget d "edges").getD .none = .list es)
    (ht : buildNodeTable ns = .ok t)
    (hne : t.isEmpty = false)
    (hstart : (startNodes t).length = 1)
    (hend : (endNodes t).length ≠ 0)
    (hel : edgeLoop t (es.filter Value.isDict)
        ((if t.isEmpty then [noNodesIssue] else []) ++ startEndIssues t)
        (initAdj t) (initAdj t) = .ok (is2, inc, out))
    (hres : ∀ e ∈ es.filter Value.isDict,
        (tget t (e.get "from")).isSome = true ∧ (tget t (e.get "to")).isSome = true)
    (htopo : ∀ p ∈ t,
        (p.2.get "type" ≠ .str "start" → ((aget inc p.1).getD []).isEmpty = false)
        ∧ (p.2.get "type" ≠ .str "end" → ((aget out p.1).getD []).isEmpty = false))
    (hdec : ∀ n ∈ decisionNodes t, ∃ nodeId, n.getKey "id" = some nodeId
        ∧ ¬ ((aget out nodeId).getD []).length < 2
        ∧ (∀ e ∈ (aget out nodeId).getD [],
            (∃ s, pyOrEmptyStrip (e.get "condition") = .ok s)
            ∧ condEmpty e = false)) :
    validate_flow (.dict d) = .ok ⟨true, []⟩ := by
  have hseed : ((if t.isEmpty then [noNodesIssue] else []) ++ startEndIssues t)
      = [] := by
    rw [hne, startEndIssues_nil hstart hend]
    rfl
  have hfm : (es.filter Value.isDict).flatMap (edgeIssuesOf t) = [] :=
    edgeFlatMap_nil (fun e he2 => edgeIssuesOf_nil (hres e he2).1 (hres e he2).2)
  have his2 : is2 = [] := by
    have h := edgeLoop_issues hel
    rw [hseed, List.nil_append, hfm] at h
    exact h
  have htopo0 : topoIssues inc out t = [] := topoIssues_nil htopo
  have hdi : decisionIssuesAll out (decisionNodes t) = .ok [] := by
    refine decisionIssuesAll_nil ?_
    intro n hn2
    obtain ⟨nodeId, hid, hbr, hcond⟩ := hdec n hn2
    exact decisionCheckNode_nil hid hbr
      (fun e he2 => (hcond e he2).1) (fun e he2 => (hcond e he2).2)
  have hrun := validate_flow_run hn he ht hel hdi
  rw [his2, htopo0] at hrun
  exact hrun

/-- Claim C4, witness: the spec's two-node example `s -> e` validates as
`valid = true` with no issues. -/
theorem C4_valid_flow_witness :
    validate_flow flowSE = .ok ⟨true, []⟩ :=
  C4_valid_flow [("nodes", .list [nodeS, nodeE]), ("edges", .list [edgeSE])]
    [nodeS, nodeE] [edgeSE] t0 [] incSE outSE
    rfl rfl rfl rfl rfl (by decide) rfl (by decide) (by decide)
    (fun n hn => absurd hn (List.not_mem_nil n))

theorem strAppend_assoc : ∀ (a b c : String), a ++ b ++ c = a ++ (b ++ c)
  | ⟨da⟩, ⟨db⟩, ⟨dc⟩ => congrArg String.mk (List.append_assoc da db dc)

theorem joinLines_cons_cons (a b : String) (rest : List String) :
    joinLines (a :: b :: rest) = a ++ "\n" ++ joinLines (b :: rest) := rfl

/-- Claim C10, counterexample: a map lacking the `nodes` key does not always
get a normal diagram — when the other key is present with a non-sequence
value (`edges: 5`), `flow_to_mermaid` returns the error diagram body and the
`Invalid Flow` sentinel title, refuting the claim's universal clause. -/
theorem C10_counterexample :
    dget [("edges", Value.int 5)] "nodes" = Option.none
    ∧ flow_to_mermaid (.dict [("edges", Value.int 5)])
        = .ok ⟨.str "Invalid Flow",
            "flowchart TD\n ERR[Invalid flow: nodes/edges not lists]\n"⟩ :=
  ⟨rfl, rfl⟩

/-- Claim C10 (amended): for a map input with a missing `nodes` or `edges`
key whose resolved (empty-list-defaulted) values are both sequences and
render without raising, `flow_to_mermaid` returns a normal diagram whose
body begins with the `flowchart TD` keyword line and whose title defaults
to `Untitled Flow`, while `validate_flow` classifies the same input as
invalid with an `invalid_structure` issue; and a resolved non-list value
can only come from a key that is present with that value. -/
theorem C10_missing_keys (d : List (String × Value)) (ns es : List Value)
    (t : Table) (nls els : List String)
    (hmiss : dget d "nodes" = Option.none ∨ dget d "edges" = Option.none)
    (hn : (dget d "nodes").getD (.list []) = .list ns)
    (he : (dget d "edges").getD (.list []) = .list es)
    (ht : buildNodeTable ns = .ok t)
    (hnl : nodeLines t = .ok nls)
    (hel : edgeLines es = .ok els) :
    flow_to_mermaid (.dict d) = .ok
      ⟨(dget d "title").getD (.str "Untitled Flow"),
        joinLines ("flowchart TD" :: (nls ++ els))⟩
    ∧ (∃ rest, joinLines ("flowchart TD" :: (nls ++ els)) = "flowchart TD" ++ rest)
    ∧ validate_flow (.dict d) = .ok ⟨false, [invalidStructureIssue]⟩
    ∧ (∀ v, (dget d "nodes").getD (.list []) = v → v.isList = false →
        dget d "nodes" = some v)
    ∧ (∀ v, (dget d "edges").getD (.list []) = v → v.isList = false →
        dget d "edges" = some v) := by
  refine ⟨flow_to_mermaid_run hn he ht hnl hel, ?_, ?_, ?_, ?_⟩
  · cases hle : nls ++ els with
    | nil => exact ⟨"", rfl⟩
    | cons x xs =>
      refine ⟨"\n" ++ joinLines (x :: xs), ?_⟩
      rw [joinLines_cons_cons, strAppend_assoc]
  · have hbs : (((dget d "nodes").getD .none).isList
        && ((dget d "edges").getD .none).isList) = false := by
      rcases hmiss with hm | hm
      · rw [hm]
        rfl
      · rw [hm]
        simp [Value.isList]
    exact validate_flow_badshape hbs
  · intro v hv hvl
    cases hdg : dget d "nodes" with
    | none =>
      rw [hdg] at hv
      rw [← hv] at hvl
      exact absurd hvl (by decide)
    | some w =>
      rw [hdg] at hv
      simp at hv
      rw [hv]
  · intro v hv hvl
    cases hdg : dget d "edges" with
    | none =>
      rw [hdg] at hv
      rw [← hv] at hvl
      exact absurd hvl (by decide)
    | some w =>
      rw [hdg] at hv
      simp at hv
      rw [hv]

/-- Claim C10 (amended), witness: a map holding only an empty `edges` list
(no `nodes` key) renders as the bare keyword line with the default title,
while the validator flags it as invalid structure. -/
theorem C10_missing_keys_witness :
    dget [("edges", Value.list [])] "nodes" = Option.none
    ∧ flow_to_mermaid (.dict [("edges", Value.list [])])
        = .ok ⟨.str "Untitled Flow", "flowchart TD"⟩
    ∧ validate_flow (.dict [("edges", Value.list [])])
        = .ok ⟨false, [invalidStructureIssue]⟩ := by
  have h := C10_missing_keys [("edges", Value.list [])] [] [] [] [] []
    (Or.inl rfl) rfl rfl rfl rfl rfl
  exact ⟨rfl, h.1, h.2.2.1⟩

/-- Claim C6: the external-description conversion round-trips.  `from_dict`
after `to_dict` is the identity on every `TaskFlow`; and on every well-formed
description, `from_dict` succeeds and `to_dict` of the result reproduces the
title, the actors, and every node/edge field, with internal `source`/`target`
mapped to the external `from`/`to` keys (captured by `edgeFieldsEq`). -/
theorem C6_roundtrip :
    (∀ t : TaskFlow, TaskFlow.from_dict (TaskFlow.to_dict t) = .ok t)
    ∧ (∀ d : Value, WfDescription d = true →
        ∃ t : TaskFlow, TaskFlow.from_dict d = .ok t
          ∧ (TaskFlow.to_dict t).get "title" = d.get "title"
          ∧ (TaskFlow.to_dict t).get "actors" = d.get "actors"
          ∧ (∃ ns ns2, d.get "nodes" = .list ns
              ∧ (TaskFlow.to_dict t).get "nodes" = .list ns2
              ∧ List.Forall₂ nodeFieldsEq ns ns2)
          ∧ (∃ es es2, d.get "edges" = .list es
              ∧ (TaskFlow.to_dict t).get "edges" = .list es2
              ∧ List.Forall₂ edgeFieldsEq es es2)) := by
  constructor
  · exact TaskFlow_from_to
  · intro d hwf
    cases d with
    | dict ds =>
      rw [WfDescription] at hwf
      simp only [Bool.and_eq_true] at hwf
      obtain ⟨⟨⟨⟨-, hti⟩, hac⟩, hns⟩, hes⟩ := hwf
      rw [Option.isSome_iff_exists] at hti hac
      obtain ⟨tv, hti⟩ := hti
      obtain ⟨av, hac⟩ := hac
      have hns2 : ∃ ns, (Value.dict ds).getKey "nodes" = some (.list ns)
          ∧ ns.all wfNodeDesc = true := by
        cases hgn : (Value.dict ds).getKey "nodes" with
        | none => rw [hgn] at hns; cases hns
        | some v =>
          cases v with
          | list ns => exact ⟨ns, rfl, by rw [hgn] at hns; exact hns⟩
          | none => rw [hgn] at hns; cases hns
          | bool b => rw [hgn] at hns; cases hns
          | int n => rw [hgn] at hns; cases hns
          | str s => rw [hgn] at hns; cases hns
          | dict es2 => rw [hgn] at hns; cases hns
      have hes2 : ∃ es, (Value.dict ds).getKey "edges" = some (.list es)
          ∧ es.all wfEdgeDesc = true := by
        cases hge : (Value.dict ds).getKey "edges" with
        | none => rw [hge] at hes; cases hes
        | some v =>
          cases v with
          | list es3 => exact ⟨es3, rfl, by rw [hge] at hes; exact hes⟩
          | none => rw [hge] at hes; cases hes
          | bool b => rw [hge] at hes; cases hes
          | int n => rw [hge] at hes; cases hes
          | str s => rw [hge] at hes; cases hes
          | dict es3 => rw [hge] at hes; cases hes
      obtain ⟨ns, hgn, hallns⟩ := hns2
      obtain ⟨es, hge, halles⟩ := hes2
      obtain ⟨nodes, hnodes, hallN⟩ := nodesFromVals_wf (fun n hn => by
        have h2 := hallns
        rw [List.all_eq_true] at h2
        exact h2 n hn)
      obtain ⟨edges, hedges, hallE⟩ := edgesFromVals_wf (fun e he2 => by
        have h2 := halles
        rw [List.all_eq_true] at h2
        exact h2 e he2)
      have hpy1 : pyIter ((dget ds "nodes").getD (.list [])) = .ok ns := by
        rw [show dget ds "nodes" = some (.list ns) from hgn]
        rfl
      have hpy2 : pyIter ((dget ds "edges").getD (.list [])) = .ok es := by
        rw [show dget ds "edges" = some (.list es) from hge]
        rfl
      refine ⟨⟨tv, av, nodes, edges⟩, ?_, ?_, ?_, ?_, ?_⟩
      · rw [TaskFlow.from_dict]
        rw [hpy1, exbind_ok, hnodes, exbind_ok, hpy2, exbind_ok, hedges, exbind_ok]
        rw [show dget ds "title" = some tv from hti,
          show dget ds "actors" = some av from hac]
        rfl
      · show tv = (Value.dict ds).get "title"
        rw [Value.get, show dget ds "title" = some tv from hti]
        rfl
      · show av = (Value.dict ds).get "actors"
        rw [Value.get, show dget ds "actors" = some av from hac]
        rfl
      · refine ⟨ns, nodes.map Node.to_dict, ?_, rfl, hallN⟩
        rw [Value.get, show dget ds "nodes" = some (.list ns) from hgn]
        rfl
      · refine ⟨es, edges.map Edge.to_dict, ?_, rfl, hallE⟩
        rw [Value.get, show dget ds "edges" = some (.list es) from hge]
        rfl
    | none => rw [WfDescription] at hwf; cases hwf
    | bool b => rw [WfDescription] at hwf; cases hwf
    | int n => rw [WfDescription] at hwf; cases hwf
    | str s => rw [WfDescription] at hwf; cases hwf
    | list l => rw [WfDescription] at hwf; cases hwf

/-- Claim C6, witness: a concrete well-formed description with one start
node and one self edge round-trips, and a concrete `TaskFlow` survives
`to_dict` followed by `from_dict` unchanged. -/
theorem C6_roundtrip_witness :
    WfDescription (.dict [("title", .str "T"), ("actors", .list [.str "user"]),
      ("nodes", .list [.dict [("id", .str "n1"), ("label", .str "L"),
        ("actor", .str "user"), ("type", .str "start")]]),
      ("edges", .list [.dict [("from", .str "n1"), ("to", .str "n1")]])]) = true
    ∧ TaskFlow.from_dict (TaskFlow.to_dict ⟨.str "T", .list [.str "user"],
        [⟨.str "n1", .str "L", .str "user", .START⟩],
        [⟨.str "n1", .str "n1", .none⟩]⟩)
      = .ok ⟨.str "T", .list [.str "user"],
        [⟨.str "n1", .str "L", .str "user", .START⟩],
        [⟨.str "n1", .str "n1", .none⟩]⟩
    ∧ (∃ t : TaskFlow, TaskFlow.from_dict
        (.dict [("title", .str "T"), ("actors", .list [.str "user"]),
          ("nodes", .list [.dict [("id", .str "n1"), ("label", .str "L"),
            ("actor", .str "user"), ("type", .str "start")]]),
          ("edges", .list [.dict [("from", .str "n1"), ("to", .str "n1")]])])
        = .ok t) := by
  refine ⟨by decide, C6_roundtrip.1 _, ?_⟩
  obtain ⟨t, ht, -⟩ := C6_roundtrip.2
    (.dict [("title", .str "T"), ("actors", .list [.str "user"]),
      ("nodes", .list [.dict [("id", .str "n1"), ("label", .str "L"),
        ("actor", .str "user"), ("type", .str "start")]]),
      ("edges", .list [.dict [("from", .str "n1"), ("to", .str "n1")]])])
    (by decide)
  exact ⟨t, ht⟩
